import Mathlib

/-!
Verification of the OSLS scale-to-print pipeline (src/label.py and
src/scale.py).  Shallow embedding: Python floats are modelled as
rationals, Python strings as Lean strings (lists of characters), and
device / file side effects as explicit parameters or returned traces.
Rational values are always built through mkRat so that concrete runs
reduce inside the kernel.
-/

/-- Python str.strip on a list of characters (the ASCII whitespace that
Char.isWhitespace covers). -/
def stripChars (l : List Char) : List Char :=
  ((l.dropWhile Char.isWhitespace).reverse.dropWhile Char.isWhitespace).reverse

/-- Python str.strip, modelling the .strip() calls of label.py. -/
def pyStrip (s : String) : String := String.mk (stripChars s.toList)

/-- Python str.replace of a comma by a dot, character map form, used by
parse_decimal (label.py line 1166). -/
def replCommaChars (l : List Char) : List Char :=
  l.map (fun c => if c = ',' then '.' else c)

/-- String form of the comma-to-dot replacement. -/
def pyReplaceCommaDot (s : String) : String := String.mk (replCommaChars s.toList)

/-- Value of a list of decimal digit characters. -/
def digitsToNat (l : List Char) : Nat :=
  l.foldl (fun acc c => acc * 10 + (c.toNat - 48)) 0

/-- Model of the Python builtin float() on plain decimal literals:
optional sign, digits, optional fraction, optional exponent, giving the
exact rational value.  Exotic accepted forms (underscore separators,
inf, nan) are outside the model; the scale pipeline only ever produces
plain decimal text. -/
def pyFloat (s : String) : Option ℚ :=
  let cs := s.toList
  let sgnr : Bool × List Char :=
    match cs with
    | c :: rest => if c = '+' then (false, rest) else if c = '-' then (true, rest) else (false, cs)
    | [] => (false, cs)
  let neg := sgnr.1
  let r1 := sgnr.2
  let ds := r1.takeWhile Char.isDigit
  let r2 := r1.dropWhile Char.isDigit
  let fr : List Char × List Char :=
    match r2 with
    | c :: rest => if c = '.' then (rest.takeWhile Char.isDigit, rest.dropWhile Char.isDigit) else ([], r2)
    | [] => ([], r2)
  let fds := fr.1
  let r3 := fr.2
  if ds = [] ∧ fds = [] then none
  else
    let base : Nat := digitsToNat ds * 10 ^ fds.length + digitsToNat fds
    let num : Int := if neg then -(base : Int) else (base : Int)
    match r3 with
    | [] => some (mkRat num (10 ^ fds.length))
    | e :: r =>
      if e = 'e' ∨ e = 'E' then
        let esr : Bool × List Char :=
          match r with
          | c :: rest => if c = '+' then (false, rest) else if c = '-' then (true, rest) else (false, r)
          | [] => (false, r)
        let eds := esr.2.takeWhile Char.isDigit
        let r5 := esr.2.dropWhile Char.isDigit
        if eds = [] ∨ r5 ≠ [] then none
        else if esr.1 then some (mkRat num (10 ^ fds.length * 10 ^ digitsToNat eds))
        else some (mkRat (num * 10 ^ digitsToNat eds) (10 ^ fds.length))
      else none

/-- parse_decimal (label.py lines 1165-1172): strip, turn commas into
dots, empty text gives no value, otherwise the float() model. -/
def parse_decimal (s : String) : Option ℚ :=
  let text := pyReplaceCommaDot (pyStrip s)
  if text = "" then none else pyFloat text

lemma toList_mk (l : List Char) : (String.mk l).toList = l := rfl

lemma isWhitespace_replComma (c : Char) :
    Char.isWhitespace (if c = ',' then '.' else c) = Char.isWhitespace c := by
  by_cases h : c = ','
  · subst h; decide
  · simp [h]

lemma replComma_dropWhile (m : List Char) :
    (replCommaChars m).dropWhile Char.isWhitespace
      = replCommaChars (m.dropWhile Char.isWhitespace) := by
  induction m with
  | nil => rfl
  | cons c t ih =>
    simp only [replCommaChars, List.map_cons, List.dropWhile_cons, isWhitespace_replComma]
    by_cases h : Char.isWhitespace c = true
    · simpa [h, replCommaChars] using ih
    · simp [h, replCommaChars]

lemma replComma_reverse (m : List Char) :
    (replCommaChars m).reverse = replCommaChars m.reverse := by
  simp [replCommaChars, List.map_reverse]

lemma stripChars_replComma (l : List Char) :
    stripChars (replCommaChars l) = replCommaChars (stripChars l) := by
  simp only [stripChars, replComma_dropWhile, replComma_reverse]

lemma replComma_idem (l : List Char) :
    replCommaChars (replCommaChars l) = replCommaChars l := by
  simp only [replCommaChars, List.map_map]
  congr 1
  funext c
  by_cases h : c = ','
  · simp [h]
  · simp [Function.comp, h]

/-- Claim C10: parse_decimal treats a comma as a decimal point — parsing
a string gives the same result as parsing it with every comma replaced
by a dot; "1,5" parses to 1.5 (the rational 3/2), and blank or
unparsable text gives no value. -/
theorem parse_decimal_comma :
    (∀ s : String, parse_decimal s = parse_decimal (pyReplaceCommaDot s))
      ∧ parse_decimal "1,5" = some (mkRat 3 2)
      ∧ parse_decimal "" = none
      ∧ parse_decimal "   " = none
      ∧ parse_decimal "abc" = none := by
  refine ⟨?_, by decide, by decide, by decide, by decide⟩
  intro s
  have key : pyReplaceCommaDot (pyStrip (pyReplaceCommaDot s)) = pyReplaceCommaDot (pyStrip s) := by
    simp only [pyReplaceCommaDot, pyStrip, toList_mk, stripChars_replComma, replComma_idem]
  simp only [parse_decimal, key]

/-! ## Minimum print weight floor (label.py lines 60, 1795-1813, 2008-2027) -/

/-- MIN_PRINT_WEIGHT_KG (label.py line 60). -/
def MIN_PRINT_WEIGHT_KG : ℚ := mkRat 1 100

/-- Python abs() on the rational float model. -/
def pyAbs (q : ℚ) : ℚ := if q < 0 then -q else q

/-- The weight guard of print_label (label.py 2012-2016): the job is
handed to the printer exactly when the current weight text parses and
its absolute value is not below the floor; otherwise print_label raises
before any dispatch side effect. -/
def print_label_dispatches (weightText : String) : Bool :=
  match parse_decimal weightText with
  | none => false
  | some w => !(decide (pyAbs w < MIN_PRINT_WEIGHT_KG))

/-- Model of _trigger_auto_print (label.py 1795-1813): True only when no
auto print is in flight, the weight text parses to a value whose
absolute value reaches the floor, and the inner print_label call
succeeds (modelled by printOk). -/
def trigger_auto_print (inFlight printOk : Bool) (weightText : String) : Bool :=
  if inFlight then false
  else
    match parse_decimal weightText with
    | none => false
    | some w => if pyAbs w < MIN_PRINT_WEIGHT_KG then false else printOk

lemma pyAbs_eq_abs (q : ℚ) : pyAbs q = |q| := by
  unfold pyAbs
  split_ifs with h
  · exact (abs_of_neg h).symm
  · exact (abs_of_nonneg (not_lt.mp h)).symm

/-! ## Canonical fixed-point key and the stability tracker
(label.py lines 1781-1836) -/

/-- Rounding of the magnitude times ten thousand to an integer, ties to
even, the rounding used by fixed-point rendering with four digits. -/
def round4mag (q : ℚ) : ℕ :=
  let a := q.num.natAbs * 10000
  let d := q.den
  let f := a / d
  let r := a % d
  if 2 * r < d then f else if d < 2 * r then f + 1 else if f % 2 = 0 then f else f + 1

/-- Decimal digit characters of a natural number, most significant
first, with explicit fuel. -/
def natDigitsAux : ℕ → ℕ → List Char
  | 0, _ => []
  | fuel + 1, n => if n = 0 then [] else natDigitsAux fuel (n / 10) ++ [Char.ofNat (48 + n % 10)]

def natDecDigits (n : ℕ) : List Char := if n = 0 then ['0'] else natDigitsAux (n + 1) n

/-- Canonical scale key: the value rendered with exactly four fraction
digits, modelling the .4f format used by _on_live_scale_value. -/
def formatQ4 (q : ℚ) : String :=
  let n := round4mag q
  let ip := n / 10000
  let fp := n % 10000
  let fd := natDecDigits fp
  String.mk ((if q < 0 then ['-'] else []) ++ natDecDigits ip
    ++ ('.' :: (List.replicate (4 - fd.length) '0' ++ fd)))

/-- The three tracker attributes of the label application: the last
formatted scale value, the consecutive-sample counter and the
already-acted (auto-printed) value. -/
structure TrackerState where
  last_scale_value : Option String
  same_value_iterations : ℕ
  last_auto_printed_value : Option String
deriving DecidableEq

/-- State installed by the constructor and by the offline reset. -/
def initialTrackerState : TrackerState :=
  { last_scale_value := none, same_value_iterations := 0, last_auto_printed_value := none }

/-- Lines 1820-1825 of _on_live_scale_value: on a matching canonical
key increment the counter, otherwise reset the key, the counter and
the already-acted memory. -/
def trackerUpdate (st : TrackerState) (formatted : String) : TrackerState :=
  if some formatted = st.last_scale_value then
    { st with same_value_iterations := st.same_value_iterations + 1 }
  else
    { last_scale_value := some formatted, same_value_iterations := 1,
      last_auto_printed_value := none }

/-- The newly-stable condition of lines 1831-1834. -/
def newlyStable (required : ℕ) (st : TrackerState) (formatted : String) : Bool :=
  decide (required ≤ st.same_value_iterations)
    && decide (st.last_auto_printed_value ≠ some formatted)

/-- One call of _on_live_scale_value (label.py 1815-1836).  autoEnabled
models the auto-print checkbox; printOk tells whether the print_label
call inside _trigger_auto_print succeeds.  Returns the new tracker
state and whether the newly-stable condition fired. -/
def on_live_scale_value (required : ℕ) (autoEnabled printOk : Bool) (st : TrackerState)
    (v : ℚ) : TrackerState × Bool :=
  let formatted := formatQ4 v
  let st1 := trackerUpdate st formatted
  if autoEnabled = false then (st1, false)
  else if newlyStable required st1 formatted then
    if trigger_auto_print false printOk formatted then
      ({ st1 with last_auto_printed_value := some formatted }, true)
    else (st1, true)
  else (st1, false)

/-- Fold of _on_live_scale_value over a list of live readings with
auto print enabled, collecting the newly-stable flags. -/
def runScale (required : ℕ) (printOk : Bool) : TrackerState → List ℚ → TrackerState × List Bool
  | st, [] => (st, [])
  | st, v :: vs =>
    ((runScale required printOk (on_live_scale_value required true printOk st v).1 vs).1,
      (on_live_scale_value required true printOk st v).2
        :: (runScale required printOk (on_live_scale_value required true printOk st v).1 vs).2)

/-- Model of _set_scale_offline_status (label.py 1781-1786): the
tracker fields are reset regardless of the previous state. -/
def set_scale_offline (_st : TrackerState) : TrackerState :=
  { last_scale_value := none, same_value_iterations := 0, last_auto_printed_value := none }

lemma on_live_same_acted (required : ℕ) (printOk : Bool) (c : ℕ) (v : ℚ) :
    on_live_scale_value required true printOk
        ⟨some (formatQ4 v), c, some (formatQ4 v)⟩ v
      = (⟨some (formatQ4 v), c + 1, some (formatQ4 v)⟩, false) := by
  simp [on_live_scale_value, trackerUpdate, newlyStable]

lemma on_live_fresh (required : ℕ) (printOk : Bool) (c : ℕ) (v : ℚ)
    (hlt : ¬ required ≤ c + 1) :
    on_live_scale_value required true printOk ⟨some (formatQ4 v), c, none⟩ v
      = (⟨some (formatQ4 v), c + 1, none⟩, false) := by
  simp [on_live_scale_value, trackerUpdate, newlyStable, hlt]

lemma on_live_hit (required : ℕ) (printOk : Bool) (c : ℕ) (v : ℚ)
    (hge : required ≤ c + 1)
    (htr : trigger_auto_print false printOk (formatQ4 v) = true) :
    on_live_scale_value required true printOk ⟨some (formatQ4 v), c, none⟩ v
      = (⟨some (formatQ4 v), c + 1, some (formatQ4 v)⟩, true) := by
  simp [on_live_scale_value, trackerUpdate, newlyStable, hge, htr]

lemma on_live_initial_eq (required : ℕ) (printOk : Bool) (v : ℚ) :
    on_live_scale_value required true printOk initialTrackerState v
      = on_live_scale_value required true printOk ⟨some (formatQ4 v), 0, none⟩ v := by
  simp [on_live_scale_value, trackerUpdate, initialTrackerState]

lemma runScale_replicate_acted (required : ℕ) (printOk : Bool) (v : ℚ) :
    ∀ (k c : ℕ),
      runScale required printOk ⟨some (formatQ4 v), c, some (formatQ4 v)⟩
          (List.replicate k v)
        = (⟨some (formatQ4 v), c + k, some (formatQ4 v)⟩, List.replicate k false) := by
  intro k
  induction k with
  | zero => intro c; simp [runScale]
  | succ k ih =>
    intro c
    have hc : c + 1 + k = c + (k + 1) := by omega
    simp only [List.replicate_succ, runScale, on_live_same_acted, ih (c + 1), hc]


lemma runScale_replicate_fresh (required : ℕ) (v : ℚ)
    (htr : trigger_auto_print false true (formatQ4 v) = true) :
    ∀ (k c : ℕ), c < required →
      (runScale required true ⟨some (formatQ4 v), c, none⟩ (List.replicate k v)).2
        = (List.range k).map (fun i => decide (c + i + 1 = required)) := by
  intro k
  induction k with
  | zero => intro c _; simp [runScale]
  | succ k ih =>
    intro c hc
    rw [List.range_succ_eq_map, List.map_cons, List.map_map]
    by_cases hhit : required ≤ c + 1
    · have hreq : required = c + 1 := by omega
      simp only [List.replicate_succ, runScale, on_live_hit required true c v hhit htr,
        runScale_replicate_acted]
      refine List.cons_eq_cons.mpr ⟨by simp [hreq], ?_⟩
      refine (List.eq_replicate_iff.mpr ⟨by simp, ?_⟩).symm
      intro b hb
      rcases List.mem_map.mp hb with ⟨i, _, rfl⟩
      simp only [Function.comp_apply, decide_eq_false_iff_not]
      omega
    · simp only [List.replicate_succ, runScale, on_live_fresh required true c v hhit,
        ih (c + 1) (by omega)]
      refine List.cons_eq_cons.mpr ⟨?_, ?_⟩
      · exact (decide_eq_false (by omega)).symm
      · refine List.map_congr_left ?_
        intro i _
        simp only [Function.comp_apply]
        exact decide_eq_decide.mpr (by omega)

lemma runScale_initial_eq (required : ℕ) (printOk : Bool) (v : ℚ) (vs : List ℚ) :
    runScale required printOk initialTrackerState (v :: vs)
      = runScale required printOk ⟨some (formatQ4 v), 0, none⟩ (v :: vs) := by
  simp only [runScale, on_live_initial_eq]

/-- Claim C2: with auto print enabled and a successful trigger, a run of
identical readings from the empty tracker state reports newly-stable
exactly at the sample whose index is the required stable count, and at
no other sample; concretely with required count 3 and readings
1.00, 1.00, 1.00, 1.00 the flags are false, false, true, false. -/
theorem stability_newly_stable_once :
    (∀ (required n : ℕ) (v : ℚ), 1 ≤ required →
        trigger_auto_print false true (formatQ4 v) = true →
        (runScale required true initialTrackerState (List.replicate n v)).2
          = (List.range n).map (fun i => decide (i + 1 = required)))
      ∧ (runScale 3 true initialTrackerState [1, 1, 1, 1]).2
          = [false, false, true, false] := by
  constructor
  · intro required n v hreq htr
    cases n with
    | zero => simp [runScale]
    | succ m =>
      rw [List.replicate_succ, runScale_initial_eq, ← List.replicate_succ]
      rw [runScale_replicate_fresh required v htr (m + 1) 0 (by omega)]
      refine List.map_congr_left ?_
      intro i _
      exact decide_eq_decide.mpr (by omega)
  · decide

theorem stability_newly_stable_once_witness :
    (runScale 3 true initialTrackerState (List.replicate 4 (1 : ℚ))).2
      = (List.range 4).map (fun i => decide (i + 1 = 3)) :=
  stability_newly_stable_once.1 3 4 1 (by decide) (by decide)

/-- Claim C3: observing a value whose canonical formatted key differs
from the tracked last value resets the consecutive count to 1 and
clears the already-acted memory; consequently a value that triggered,
fluctuated for one sample and re-stabilized triggers again (flags for
1, 1, 1, 2, 1, 1, 1 at required count 3 are F, F, T, F, F, F, T). -/
theorem value_change_resets_tracker :
    (∀ (st : TrackerState) (v : ℚ), some (formatQ4 v) ≠ st.last_scale_value →
        trackerUpdate st (formatQ4 v)
          = { last_scale_value := some (formatQ4 v), same_value_iterations := 1,
              last_auto_printed_value := none })
      ∧ (runScale 3 true initialTrackerState [1, 1, 1, 2, 1, 1, 1]).2
          = [false, false, true, false, false, false, true] := by
  refine ⟨fun st v h => ?_, by decide⟩
  simp [trackerUpdate, h]

theorem value_change_resets_tracker_witness :
    trackerUpdate ⟨some "0.5000", 3, some "0.5000"⟩ (formatQ4 2)
      = { last_scale_value := some (formatQ4 2), same_value_iterations := 1,
          last_auto_printed_value := none } :=
  value_change_resets_tracker.1 ⟨some "0.5000", 3, some "0.5000"⟩ 2 (by decide)

lemma trackerUpdate_count_le (st : TrackerState) (f : String) :
    (trackerUpdate st f).same_value_iterations ≤ st.same_value_iterations + 1 := by
  unfold trackerUpdate
  split_ifs
  · exact Nat.le_refl _
  · exact Nat.succ_le_succ (Nat.zero_le _)

lemma on_live_state_count (required : ℕ) (printOk : Bool) (st : TrackerState) (v : ℚ) :
    (on_live_scale_value required true printOk st v).1.same_value_iterations
      = (trackerUpdate st (formatQ4 v)).same_value_iterations := by
  simp only [on_live_scale_value, Bool.true_eq_false, if_false]
  split_ifs <;> rfl

lemma on_live_count_le (required : ℕ) (printOk : Bool) (st : TrackerState) (v : ℚ) :
    (on_live_scale_value required true printOk st v).1.same_value_iterations
      ≤ st.same_value_iterations + 1 := by
  rw [on_live_state_count]
  exact trackerUpdate_count_le st _

lemma on_live_flag_count (required : ℕ) (printOk : Bool) (st : TrackerState) (v : ℚ)
    (h : (on_live_scale_value required true printOk st v).2 = true) :
    required ≤ st.same_value_iterations + 1 := by
  by_cases hns : newlyStable required (trackerUpdate st (formatQ4 v)) (formatQ4 v) = true
  · have h1 : required ≤ (trackerUpdate st (formatQ4 v)).same_value_iterations := by
      unfold newlyStable at hns
      simp only [Bool.and_eq_true, decide_eq_true_eq] at hns
      exact hns.1
    exact le_trans h1 (trackerUpdate_count_le st _)
  · exfalso
    simp [on_live_scale_value, hns] at h

lemma runScale_short_all_false (required : ℕ) (printOk : Bool) :
    ∀ (vs : List ℚ) (st : TrackerState),
      st.same_value_iterations + vs.length < required →
      ((runScale required printOk st vs).2.all fun b => !b) = true := by
  intro vs
  induction vs with
  | nil => intro st _; simp [runScale]
  | cons v t ih =>
    intro st hlen
    simp only [runScale, List.all_cons, Bool.and_eq_true]
    constructor
    · by_contra hflag
      have h2 : (on_live_scale_value required true printOk st v).2 = true := by
        revert hflag; cases (on_live_scale_value required true printOk st v).2 <;> simp
      have := on_live_flag_count required printOk st v h2
      simp only [List.length_cons] at hlen
      omega
    · refine ih _ ?_
      have := on_live_count_le required printOk st v
      simp only [List.length_cons] at hlen
      omega

/-- Claim C9: the offline reset installs the empty initial tracker
state (no last value, count zero, no acted memory), and from a reset
state no sequence shorter than the required stable count ever reports
newly-stable. -/
theorem offline_reset_tracker :
    (∀ st : TrackerState, set_scale_offline st = initialTrackerState)
      ∧ (∀ (required : ℕ) (printOk : Bool) (vs : List ℚ) (st : TrackerState),
          vs.length < required →
          ((runScale required printOk (set_scale_offline st) vs).2.all fun b => !b) = true) := by
  refine ⟨fun _ => rfl, fun required printOk vs st hlen => ?_⟩
  refine runScale_short_all_false required printOk vs (set_scale_offline st) ?_
  simpa [set_scale_offline] using hlen

theorem offline_reset_tracker_witness :
    ((runScale 3 true (set_scale_offline ⟨some "1.0000", 9, some "1.0000"⟩) [1, 1]).2.all
        fun b => !b) = true :=
  offline_reset_tracker.2 3 true [1, 1] ⟨some "1.0000", 9, some "1.0000"⟩ (by decide)

/-- Claim C1 counterexample: a negative reading of minus one kilogram
parses, is negative, and is dispatched by both the manual and the auto
print path — the floor guard only rejects magnitudes below 0.01 kg, not
negative readings. -/
theorem print_floor_negative_cex :
    parse_decimal "-1.0000" = some (-1) ∧ ((-1 : ℚ) < 0)
      ∧ print_label_dispatches "-1.0000" = true
      ∧ trigger_auto_print false true "-1.0000" = true := by
  refine ⟨by decide, by decide, by decide, by decide⟩

/-- Claim C1 amended: both print paths reject exactly the readings
whose parsed weight is missing or has absolute value below the 0.01 kg
floor; 0.0 and 0.005 kg never dispatch, an in-flight auto print never
dispatches, but a negative weight of magnitude at least the floor does
dispatch. -/
theorem print_floor_amended :
    (∀ (t : String) (w : ℚ), parse_decimal t = some w →
        (print_label_dispatches t = true ↔ MIN_PRINT_WEIGHT_KG ≤ |w|)
          ∧ ∀ printOk : Bool,
              (trigger_auto_print false printOk t = true
                ↔ (MIN_PRINT_WEIGHT_KG ≤ |w| ∧ printOk = true)))
      ∧ (∀ t : String, parse_decimal t = none →
          print_label_dispatches t = false
            ∧ ∀ inFlight printOk : Bool, trigger_auto_print inFlight printOk t = false)
      ∧ (∀ (t : String) (printOk : Bool), trigger_auto_print true printOk t = false)
      ∧ print_label_dispatches "0.0000" = false
      ∧ print_label_dispatches "0.005" = false
      ∧ trigger_auto_print false true "0.005" = false := by
  refine ⟨?_, ?_, ?_, by decide, by decide, by decide⟩
  · intro t w h
    constructor
    · simp only [print_label_dispatches, h, Bool.not_eq_true', decide_eq_false_iff_not,
        not_lt, pyAbs_eq_abs]
    · intro printOk
      simp only [trigger_auto_print, Bool.false_eq_true, if_false, h]
      split_ifs with hlt
      · rw [pyAbs_eq_abs] at hlt
        simp [not_le.mpr hlt]
      · rw [pyAbs_eq_abs, not_lt] at hlt
        simp [hlt]
  · intro t h
    refine ⟨by simp [print_label_dispatches, h], ?_⟩
    intro inFlight printOk
    cases inFlight <;> simp [trigger_auto_print, h]
  · intro t printOk
    rfl

theorem print_floor_amended_witness :
    print_label_dispatches "0.5000" = true :=
  ((print_floor_amended.1 "0.5000" (mkRat 1 2) (by decide)).1).mpr
    (by rw [abs_of_pos (by norm_num [Rat.mkRat_eq_divInt])]
        norm_num [MIN_PRINT_WEIGHT_KG, Rat.mkRat_eq_divInt])

/-! ## Print dispatch with bounded classified retries
(label.py lines 61-62, 464-519) -/

/-- PRINT_RETRY_ATTEMPTS (label.py line 61). -/
def PRINT_RETRY_ATTEMPTS : ℕ := 4

/-- The wait slept before the retry following a failed attempt:
PRINT_RETRY_BASE_DELAY_SECONDS * attempt, with the base delay of 0.35
seconds expressed as the rational 35/100. -/
def printRetryDelay (attempt : ℕ) : ℚ := mkRat (35 * (attempt : ℤ)) 100

/-- Lower-cased characters, modelling str.lower() for the ASCII range
the error signatures use. -/
def lowerChars (l : List Char) : List Char := l.map Char.toLower

/-- Python substring membership test on character lists. -/
def containsSub (pat : List Char) : List Char → Bool
  | [] => pat.isEmpty
  | c :: rest => pat.isPrefixOf (c :: rest) || containsSub pat rest

/-- is_resource_busy_error (label.py 464-470): the transient
resource-contention classifier over the lower-cased diagnostic text. -/
def is_resource_busy_error (msg : String) : Bool :=
  containsSub ("resource busy".toList) (lowerChars msg.toList)
    || containsSub ("errno 16".toList) (lowerChars msg.toList)
    || containsSub ("usb.core.usberror".toList) (lowerChars msg.toList)

/-- Outcome of one invocation of the external brother_ql CLI: exit
status zero, or a failure with the combined stripped stderr/stdout
text. -/
inductive CliResult where
  | success : CliResult
  | failure : String → CliResult
deriving DecidableEq

/-- last_output = output or "brother_ql CLI print failed." -/
def effOutput (out : String) : String :=
  if out = "" then "brother_ql CLI print failed." else out

/-- Result trace of the retry loop of print_via_brother_cli: whether
dispatch succeeded, the raised diagnostic when it did not, how many
attempts ran, and the waits slept between attempts in order. -/
structure DispatchTrace where
  ok : Bool
  error : Option String
  attempts : ℕ
  waits : List ℚ
deriving DecidableEq

/-- The for-loop of print_via_brother_cli (label.py 498-519), fuel
counting the remaining iterations.  On success return; on a failure
classified transient with attempts left, sleep base * attempt and
continue; otherwise raise the diagnostic. -/
def printAttemptLoop (mech : ℕ → CliResult) : ℕ → ℕ → String → DispatchTrace
  | 0, attempt, lastOut =>
    { ok := false, error := some (effOutput lastOut), attempts := attempt - 1, waits := [] }
  | fuel + 1, attempt, _lastOut =>
    match mech attempt with
    | CliResult.success => { ok := true, error := none, attempts := attempt, waits := [] }
    | CliResult.failure out =>
      if attempt < PRINT_RETRY_ATTEMPTS ∧ is_resource_busy_error (effOutput out) = true then
        { ok := (printAttemptLoop mech fuel (attempt + 1) (effOutput out)).ok
          error := (printAttemptLoop mech fuel (attempt + 1) (effOutput out)).error
          attempts := (printAttemptLoop mech fuel (attempt + 1) (effOutput out)).attempts
          waits := printRetryDelay attempt
            :: (printAttemptLoop mech fuel (attempt + 1) (effOutput out)).waits }
      else { ok := false, error := some (effOutput out), attempts := attempt, waits := [] }

/-- print_via_brother_cli (label.py 473-519) abstracted over the CLI
invocation outcome per attempt number. -/
def print_via_brother_cli (mech : ℕ → CliResult) : DispatchTrace :=
  printAttemptLoop mech PRINT_RETRY_ATTEMPTS 1 ""

/-- Boolean strictly-increasing check on rational lists. -/
def strictlyIncreasingQ : List ℚ → Bool
  | [] => true
  | [_] => true
  | a :: b :: t => decide (a < b) && strictlyIncreasingQ (b :: t)

/-- Transient mechanism: resource busy on attempts 1-3, success on 4. -/
def mechBusy3 : ℕ → CliResult :=
  fun i => if i ≤ 3 then CliResult.failure "Resource busy" else CliResult.success

/-- Mechanism failing with a non-transient diagnostic. -/
def mechFatal1 : ℕ → CliResult := fun _ => CliResult.failure "usb device not found"

lemma printAttemptLoop_attempts (mech : ℕ → CliResult) :
    ∀ (fuel attempt : ℕ) (lastOut : String),
      (attempt - 1 ≤ (printAttemptLoop mech fuel attempt lastOut).attempts
          ∧ (printAttemptLoop mech fuel attempt lastOut).attempts ≤ attempt - 1 + fuel)
        ∧ (1 ≤ fuel → attempt ≤ (printAttemptLoop mech fuel attempt lastOut).attempts) := by
  intro fuel
  induction fuel with
  | zero =>
    intro attempt lastOut
    refine ⟨⟨?_, ?_⟩, ?_⟩ <;> simp [printAttemptLoop] <;> omega
  | succ f ih =>
    intro attempt lastOut
    cases hm : mech attempt with
    | success =>
      refine ⟨⟨?_, ?_⟩, ?_⟩ <;> simp [printAttemptLoop, hm] <;> omega
    | failure out =>
      by_cases hc : attempt < PRINT_RETRY_ATTEMPTS ∧ is_resource_busy_error (effOutput out) = true
      · have h1 := (ih (attempt + 1) (effOutput out)).1
        have h2 := (ih (attempt + 1) (effOutput out)).2
        refine ⟨⟨?_, ?_⟩, fun _ => ?_⟩ <;>
          simp only [printAttemptLoop, hm, if_pos hc] <;> omega
      · refine ⟨⟨?_, ?_⟩, ?_⟩ <;> simp [printAttemptLoop, hm, if_neg hc] <;> omega

lemma printAttemptLoop_waits (mech : ℕ → CliResult) :
    ∀ (fuel attempt : ℕ) (lastOut : String),
      attempt + fuel = PRINT_RETRY_ATTEMPTS + 1 →
      (printAttemptLoop mech fuel attempt lastOut).waits
        = (List.range' attempt
            ((printAttemptLoop mech fuel attempt lastOut).attempts - attempt)).map
              printRetryDelay := by
  intro fuel
  induction fuel with
  | zero =>
    intro attempt lastOut _
    have h0 : attempt - 1 - attempt = 0 := by omega
    simp [printAttemptLoop, h0]
  | succ f ih =>
    intro attempt lastOut hinv
    cases hm : mech attempt with
    | success =>
      simp [printAttemptLoop, hm]
    | failure out =>
      by_cases hc : attempt < PRINT_RETRY_ATTEMPTS ∧ is_resource_busy_error (effOutput out) = true
      · have hf : 1 ≤ f := by
          have := hc.1
          simp only [PRINT_RETRY_ATTEMPTS] at this hinv ⊢
          omega
        have hlow := (printAttemptLoop_attempts mech f (attempt + 1) (effOutput out)).2 hf
        have hrec := ih (attempt + 1) (effOutput out) (by omega)
        have hk : (printAttemptLoop mech f (attempt + 1) (effOutput out)).attempts - attempt
            = ((printAttemptLoop mech f (attempt + 1) (effOutput out)).attempts
                - (attempt + 1)) + 1 := by omega
        simp only [printAttemptLoop, hm, if_pos hc, hrec, hk, List.range'_succ, List.map_cons]
      · have h0 : attempt - attempt = 0 := by omega
        simp [printAttemptLoop, hm, if_neg hc, h0]

lemma printAttemptLoop_retried (mech : ℕ → CliResult) :
    ∀ (fuel attempt : ℕ) (lastOut : String) (i : ℕ), attempt ≤ i →
      i < (printAttemptLoop mech fuel attempt lastOut).attempts →
      ∃ out, mech i = CliResult.failure out
        ∧ is_resource_busy_error (effOutput out) = true := by
  intro fuel
  induction fuel with
  | zero =>
    intro attempt lastOut i hle hlt
    simp only [printAttemptLoop] at hlt
    omega
  | succ f ih =>
    intro attempt lastOut i hle hlt
    cases hm : mech attempt with
    | success =>
      simp only [printAttemptLoop, hm] at hlt
      omega
    | failure out =>
      by_cases hc : attempt < PRINT_RETRY_ATTEMPTS ∧ is_resource_busy_error (effOutput out) = true
      · simp only [printAttemptLoop, hm, if_pos hc] at hlt
        rcases Nat.eq_or_lt_of_le hle with heq | hgt
        · exact ⟨out, heq ▸ hm, hc.2⟩
        · exact ih (attempt + 1) (effOutput out) i hgt hlt
      · simp only [printAttemptLoop, hm, if_neg hc] at hlt
        omega

lemma printRetryDelay_lt (s : ℕ) : printRetryDelay s < printRetryDelay (s + 1) := by
  unfold printRetryDelay
  rw [Rat.mkRat_eq_divInt, Rat.mkRat_eq_divInt, Rat.divInt_eq_div, Rat.divInt_eq_div]
  rw [div_lt_div_iff_of_pos_right (by norm_num)]
  exact_mod_cast by omega

lemma si_delays : ∀ (n s : ℕ),
    strictlyIncreasingQ ((List.range' s n).map printRetryDelay) = true := by
  intro n
  induction n with
  | zero => intro s; rfl
  | succ m ih =>
    intro s
    cases m with
    | zero => rfl
    | succ k =>
      simp only [List.range'_succ, List.map_cons, strictlyIncreasingQ, Bool.and_eq_true]
      refine ⟨decide_eq_true (printRetryDelay_lt s), ?_⟩
      have h := ih (s + 1)
      simpa [List.range'_succ, List.map_cons] using h

/-- Claim C4: print dispatch performs between one and four attempts,
every attempt that is followed by another failed with a diagnostic
classified as transient resource contention, the waits slept are
base * attempt for the failed attempts in order (hence strictly
increasing), a mechanism transiently busy on attempts 1-3 and
succeeding on 4 dispatches after exactly four attempts, and a
mechanism failing non-transiently on attempt 1 fails after exactly
one attempt. -/
theorem print_dispatch_retry_policy :
    (∀ mech : ℕ → CliResult,
        1 ≤ (print_via_brother_cli mech).attempts
          ∧ (print_via_brother_cli mech).attempts ≤ PRINT_RETRY_ATTEMPTS)
      ∧ (∀ (mech : ℕ → CliResult) (i : ℕ), 1 ≤ i →
          i < (print_via_brother_cli mech).attempts →
          ∃ out, mech i = CliResult.failure out
            ∧ is_resource_busy_error (effOutput out) = true)
      ∧ (∀ mech : ℕ → CliResult,
          (print_via_brother_cli mech).waits
            = (List.range' 1 ((print_via_brother_cli mech).attempts - 1)).map printRetryDelay)
      ∧ (∀ mech : ℕ → CliResult,
          strictlyIncreasingQ (print_via_brother_cli mech).waits = true)
      ∧ print_via_brother_cli mechBusy3
          = { ok := true, error := none, attempts := 4,
              waits := [printRetryDelay 1, printRetryDelay 2, printRetryDelay 3] }
      ∧ print_via_brother_cli mechFatal1
          = { ok := false, error := some "usb device not found", attempts := 1,
              waits := [] } := by
  refine ⟨?_, ?_, ?_, ?_, by decide, by decide⟩
  · intro mech
    have h := printAttemptLoop_attempts mech PRINT_RETRY_ATTEMPTS 1 ""
    refine ⟨h.2 (by decide), ?_⟩
    have := h.1.2
    simpa [print_via_brother_cli, PRINT_RETRY_ATTEMPTS] using this
  · intro mech i h1 hlt
    exact printAttemptLoop_retried mech PRINT_RETRY_ATTEMPTS 1 "" i h1 hlt
  · intro mech
    exact printAttemptLoop_waits mech PRINT_RETRY_ATTEMPTS 1 "" (by decide)
  · intro mech
    have hw := printAttemptLoop_waits mech PRINT_RETRY_ATTEMPTS 1 "" (by decide)
    show strictlyIncreasingQ (printAttemptLoop mech PRINT_RETRY_ATTEMPTS 1 "").waits = true
    rw [hw]
    exact si_delays _ 1

theorem print_dispatch_retry_policy_witness :
    ∃ out, mechBusy3 1 = CliResult.failure out
      ∧ is_resource_busy_error (effOutput out) = true :=
  print_dispatch_retry_policy.2.1 mechBusy3 1 (by decide) (by decide)

/-! ## Line parser: the weight regex of scale.py (VALUE_RE, line 10,
case sensitive) and label.py (SCALE_VALUE_RE, line 59, IGNORECASE) -/

/-- Match of one literal pattern character against an input character:
with ic (IGNORECASE) the input is lower-cased first. -/
def unitChar (ic : Bool) (pat c : Char) : Bool := if ic then c.toLower = pat else c = pat

/-- The optional sign of the pattern. -/
def parseSign (cs : List Char) : List Char × List Char :=
  match cs with
  | c :: rest => if c = '+' ∨ c = '-' then ([c], rest) else ([], cs)
  | [] => ([], cs)

/-- The optional fraction group of the pattern: a dot followed by at
least one digit, otherwise nothing is consumed. -/
def parseFrac (r2 : List Char) : List Char × List Char :=
  match r2 with
  | c :: rest =>
    if c = '.' then
      if rest.takeWhile Char.isDigit = [] then ([], r2)
      else ('.' :: rest.takeWhile Char.isDigit, rest.dropWhile Char.isDigit)
    else ([], r2)
  | [] => ([], r2)

/-- One anchored attempt of the weight pattern (optional sign, digits,
optional fraction, whitespace, the two unit letters), returning the
captured number group.  For this pattern greedy matching never needs
backtracking, so the function is deterministic. -/
def matchWeightAt (ic : Bool) (cs : List Char) : Option (List Char) :=
  let sr := parseSign cs
  let ds := sr.2.takeWhile Char.isDigit
  let r2 := sr.2.dropWhile Char.isDigit
  if ds = [] then none
  else
    let fr := parseFrac r2
    let r4 := fr.2.dropWhile Char.isWhitespace
    match r4 with
    | c1 :: c2 :: _ =>
      if unitChar ic 'k' c1 && unitChar ic 'g' c2 then some (sr.1 ++ ds ++ fr.1)
      else none
    | _ => none

/-- re.search over the line: try each position left to right. -/
def searchWeight (ic : Bool) : List Char → Option (List Char)
  | [] => none
  | c :: rest =>
    match matchWeightAt ic (c :: rest) with
    | some g => some g
    | none => searchWeight ic rest

/-- scale.py lines 43-46: VALUE_RE search (case sensitive) followed by
float() on the captured group. -/
def scaleLineValue (line : String) : Option ℚ :=
  match searchWeight false line.toList with
  | none => none
  | some g => pyFloat (String.mk g)

/-- label.py lines 1765-1769: SCALE_VALUE_RE search (IGNORECASE)
followed by float() on the captured group. -/
def labelLineValue (line : String) : Option ℚ :=
  match searchWeight true line.toList with
  | none => none
  | some g => pyFloat (String.mk g)

lemma ws_not_digit (c : Char) (h : c.isWhitespace = true) : c.isDigit = false := by
  simp only [Char.isWhitespace] at h
  simp only [Bool.or_eq_true, decide_eq_true_eq] at h
  rcases h with ((h | h) | h) | h <;> subst h <;> decide

lemma ws_ne_dot (c : Char) (h : c.isWhitespace = true) : c ≠ '.' := by
  intro he
  subst he
  exact absurd h (by decide)

lemma digit_ne_plus (c : Char) (h : c.isDigit = true) : c ≠ '+' := by
  intro he; subst he; exact absurd h (by decide)

lemma digit_ne_minus (c : Char) (h : c.isDigit = true) : c ≠ '-' := by
  intro he; subst he; exact absurd h (by decide)

lemma takeWhile_append_of_all {p : Char → Bool} :
    ∀ (xs ys : List Char), (∀ a ∈ xs, p a = true) →
      (∀ y, ys.head? = some y → p y = false) →
      (xs ++ ys).takeWhile p = xs ∧ (xs ++ ys).dropWhile p = ys := by
  intro xs
  induction xs with
  | nil =>
    intro ys _ hy
    cases ys with
    | nil => exact ⟨rfl, rfl⟩
    | cons y t =>
      have h := hy y rfl
      constructor <;> simp [List.takeWhile_cons, List.dropWhile_cons, h]
  | cons x xs ih =>
    intro ys hall hy
    have hx : p x = true := hall x (by simp)
    have hrest := ih ys (fun a ha => hall a (by simp [ha])) hy
    constructor <;>
      simp [List.takeWhile_cons, List.dropWhile_cons, hx, hrest.1, hrest.2]

lemma parseSign_eq (sign rest : List Char) (d : Char)
    (hsign : sign = [] ∨ sign = ['+'] ∨ sign = ['-']) (hd : d.isDigit = true) :
    parseSign (sign ++ d :: rest) = (sign, d :: rest) := by
  rcases hsign with h | h | h <;> subst h
  · simp [parseSign, digit_ne_plus d hd, digit_ne_minus d hd]
  · simp [parseSign]
  · simp [parseSign]

lemma parseFrac_dot (fds rest : List Char) (hne : fds ≠ [])
    (hd : ∀ c ∈ fds, c.isDigit = true)
    (hhead : ∀ y, rest.head? = some y → y.isDigit = false) :
    parseFrac (('.' :: fds) ++ rest) = ('.' :: fds, rest) := by
  have h := takeWhile_append_of_all fds rest hd hhead
  simp [parseFrac, h.1, h.2, hne]

lemma parseFrac_skip (r2 : List Char) (hhead : ∀ y, r2.head? = some y → y ≠ '.') :
    parseFrac r2 = ([], r2) := by
  cases r2 with
  | nil => rfl
  | cons c rest => simp [parseFrac, hhead c rfl]

lemma head_notDigit_wsUnit (ws post : List Char) (u1 u2 : Char)
    (hws : ∀ c ∈ ws, c.isWhitespace = true) (hu1 : u1 = 'k' ∨ u1 = 'K') :
    ∀ y, (ws ++ u1 :: u2 :: post).head? = some y → y.isDigit = false := by
  intro y hy
  cases ws with
  | nil =>
    simp only [List.nil_append, List.head?_cons, Option.some.injEq] at hy
    subst hy
    rcases hu1 with h | h <;> subst h <;> decide
  | cons w ws' =>
    simp only [List.cons_append, List.head?_cons, Option.some.injEq] at hy
    subst hy
    exact ws_not_digit w (hws w (by simp))

lemma head_notDigit_S (frac ws post : List Char) (u1 u2 : Char)
    (hfrac : frac = [] ∨ ∃ fds, fds ≠ [] ∧ (∀ c ∈ fds, c.isDigit = true) ∧ frac = '.' :: fds)
    (hws : ∀ c ∈ ws, c.isWhitespace = true) (hu1 : u1 = 'k' ∨ u1 = 'K') :
    ∀ y, (frac ++ (ws ++ u1 :: u2 :: post)).head? = some y → y.isDigit = false := by
  rcases hfrac with h | ⟨fds, _, _, h⟩ <;> subst h
  · simpa using head_notDigit_wsUnit ws post u1 u2 hws hu1
  · intro y hy
    simp only [List.cons_append, List.head?_cons, Option.some.injEq] at hy
    subst hy
    decide

lemma matchWeightAt_parts (sign ds frac ws post : List Char) (u1 u2 : Char)
    (hsign : sign = [] ∨ sign = ['+'] ∨ sign = ['-'])
    (hds : ds ≠ []) (hdsd : ∀ c ∈ ds, c.isDigit = true)
    (hfrac : frac = [] ∨ ∃ fds, fds ≠ [] ∧ (∀ c ∈ fds, c.isDigit = true) ∧ frac = '.' :: fds)
    (hws : ∀ c ∈ ws, c.isWhitespace = true)
    (hu1 : u1 = 'k' ∨ u1 = 'K') (hu2 : u2 = 'g' ∨ u2 = 'G') :
    matchWeightAt true (sign ++ ds ++ frac ++ ws ++ u1 :: u2 :: post)
      = some (sign ++ ds ++ frac) := by
  obtain ⟨d, ds', rfl⟩ : ∃ d t, ds = d :: t := by
    cases ds with
    | nil => exact absurd rfl hds
    | cons d t => exact ⟨d, t, rfl⟩
  have hdd : d.isDigit = true := hdsd d (by simp)
  have hre : sign ++ (d :: ds') ++ frac ++ ws ++ u1 :: u2 :: post
      = sign ++ d :: (ds' ++ (frac ++ (ws ++ u1 :: u2 :: post))) := by
    simp [List.append_assoc]
  rw [hre]
  have hps := parseSign_eq sign (ds' ++ (frac ++ (ws ++ u1 :: u2 :: post))) d hsign hdd
  have htd := takeWhile_append_of_all (d :: ds') (frac ++ (ws ++ u1 :: u2 :: post)) hdsd
    (head_notDigit_S frac ws post u1 u2 hfrac hws hu1)
  have htd1 : (d :: (ds' ++ (frac ++ (ws ++ u1 :: u2 :: post)))).takeWhile Char.isDigit
      = d :: ds' := by simpa using htd.1
  have htd2 : (d :: (ds' ++ (frac ++ (ws ++ u1 :: u2 :: post)))).dropWhile Char.isDigit
      = frac ++ (ws ++ u1 :: u2 :: post) := by simpa using htd.2
  have hfr : parseFrac (frac ++ (ws ++ u1 :: u2 :: post)) = (frac, ws ++ u1 :: u2 :: post) := by
    rcases hfrac with h | ⟨fds, hne, hd2, h⟩ <;> subst h
    · simp only [List.nil_append]
      refine parseFrac_skip _ ?_
      intro y hy
      cases ws with
      | nil =>
        simp only [List.nil_append, List.head?_cons, Option.some.injEq] at hy
        subst hy
        rcases hu1 with h | h <;> subst h <;> decide
      | cons w ws' =>
        simp only [List.cons_append, List.head?_cons, Option.some.injEq] at hy
        subst hy
        exact ws_ne_dot w (hws w (by simp))
    · have h3 := parseFrac_dot fds (ws ++ u1 :: u2 :: post) hne hd2
        (head_notDigit_wsUnit ws post u1 u2 hws hu1)
      simpa using h3
  have hwsd : (ws ++ u1 :: u2 :: post).dropWhile Char.isWhitespace = u1 :: u2 :: post := by
    refine (takeWhile_append_of_all ws (u1 :: u2 :: post) hws ?_).2
    intro y hy
    simp only [List.head?_cons, Option.some.injEq] at hy
    subst hy
    rcases hu1 with h | h <;> subst h <;> decide
  have hu1t : unitChar true 'k' u1 = true := by rcases hu1 with h | h <;> subst h <;> decide
  have hu2t : unitChar true 'g' u2 = true := by rcases hu2 with h | h <;> subst h <;> decide
  simp only [matchWeightAt, hps]
  simp [htd1, htd2, hfr, hwsd, hu1t, hu2t]

lemma takeWhile_all {p : Char → Bool} (l : List Char) (h : ∀ a ∈ l, p a = true) :
    l.takeWhile p = l ∧ l.dropWhile p = [] := by
  have h2 := takeWhile_append_of_all l [] h (by intro y hy; simp at hy)
  simpa using h2

lemma parseSign_shape (cs : List Char) :
    ((parseSign cs).1 = [] ∨ (parseSign cs).1 = ['+'] ∨ (parseSign cs).1 = ['-']) := by
  cases cs with
  | nil => exact Or.inl rfl
  | cons c rest =>
    by_cases h : c = '+' ∨ c = '-'
    · rcases h with h | h <;> subst h <;> simp [parseSign]
    · simp [parseSign, h]

lemma parseFrac_shape (r2 : List Char) :
    (parseFrac r2).1 = []
      ∨ ∃ fds, fds ≠ [] ∧ (∀ c ∈ fds, c.isDigit = true) ∧ (parseFrac r2).1 = '.' :: fds := by
  cases r2 with
  | nil => exact Or.inl rfl
  | cons c rest =>
    by_cases hdot : c = '.'
    · subst hdot
      by_cases hemp : rest.takeWhile Char.isDigit = []
      · simp [parseFrac, hemp]
      · refine Or.inr ⟨rest.takeWhile Char.isDigit, hemp, ?_, ?_⟩
        · intro x hx
          exact List.mem_takeWhile_imp hx
        · simp [parseFrac, hemp]
    · simp [parseFrac, hdot]

lemma matchWeightAt_shape (ic : Bool) (cs g : List Char)
    (h : matchWeightAt ic cs = some g) :
    ∃ sign ds frac, g = sign ++ ds ++ frac
      ∧ (sign = [] ∨ sign = ['+'] ∨ sign = ['-'])
      ∧ ds ≠ [] ∧ (∀ c ∈ ds, c.isDigit = true)
      ∧ (frac = [] ∨ ∃ fds, fds ≠ [] ∧ (∀ c ∈ fds, c.isDigit = true) ∧ frac = '.' :: fds) := by
  simp only [matchWeightAt] at h
  by_cases hds : (parseSign cs).2.takeWhile Char.isDigit = []
  · rw [if_pos hds] at h
    exact absurd h (by simp)
  · rw [if_neg hds] at h
    rcases hr : ((parseFrac ((parseSign cs).2.dropWhile Char.isDigit)).2.dropWhile
        Char.isWhitespace) with _ | ⟨c1, tail⟩
    · rw [hr] at h
      exact absurd h (by simp)
    · rcases tail with _ | ⟨c2, t2⟩
      · rw [hr] at h
        exact absurd h (by simp)
      · rw [hr] at h
        have h2 : (if (unitChar ic 'k' c1 && unitChar ic 'g' c2) = true then
            some ((parseSign cs).1 ++ (parseSign cs).2.takeWhile Char.isDigit
              ++ (parseFrac ((parseSign cs).2.dropWhile Char.isDigit)).1)
          else none) = some g := h
        by_cases hu : (unitChar ic 'k' c1 && unitChar ic 'g' c2) = true
        · rw [if_pos hu] at h2
          refine ⟨(parseSign cs).1, (parseSign cs).2.takeWhile Char.isDigit,
            (parseFrac ((parseSign cs).2.dropWhile Char.isDigit)).1,
            (Option.some.inj h2).symm, parseSign_shape cs, hds, ?_, parseFrac_shape _⟩
          intro x hx
          exact List.mem_takeWhile_imp hx
        · rw [if_neg hu] at h2
          exact absurd h2 (by simp)

lemma pyFloat_parts (sign ds frac : List Char)
    (hsign : sign = [] ∨ sign = ['+'] ∨ sign = ['-'])
    (hds : ds ≠ []) (hdsd : ∀ c ∈ ds, c.isDigit = true)
    (hfrac : frac = [] ∨ ∃ fds, fds ≠ [] ∧ (∀ c ∈ fds, c.isDigit = true) ∧ frac = '.' :: fds) :
    (pyFloat (String.mk (sign ++ ds ++ frac))).isSome = true := by
  obtain ⟨d, ds', rfl⟩ : ∃ d t, ds = d :: t := by
    cases ds with
    | nil => exact absurd rfl hds
    | cons d t => exact ⟨d, t, rfl⟩
  have hdd : d.isDigit = true := hdsd d (by simp)
  have hp : d ≠ '+' := digit_ne_plus d hdd
  have hm : d ≠ '-' := digit_ne_minus d hdd
  rcases hsign with h | h | h <;> subst h <;>
    rcases hfrac with h2 | ⟨fds, hne, hd2, h2⟩ <;> subst h2
  all_goals
    first
    | (have ht := takeWhile_append_of_all (d :: ds') ('.' :: fds) hdsd
         (by intro y hy
             simp only [List.head?_cons, Option.some.injEq] at hy
             subst hy
             decide)
       have ht2 := takeWhile_all fds hd2
       have htA : List.takeWhile Char.isDigit (d :: (ds' ++ '.' :: fds)) = d :: ds' := by
         simpa using ht.1
       have htB : List.dropWhile Char.isDigit (d :: (ds' ++ '.' :: fds)) = '.' :: fds := by
         simpa using ht.2
       simp [pyFloat, toList_mk, hp, hm, List.cons_append, List.append_nil,
         htA, htB, ht2.1, ht2.2])
    | (have ht := takeWhile_all (d :: ds') hdsd
       simp [pyFloat, toList_mk, hp, hm, List.cons_append, List.append_nil, ht.1, ht.2])

lemma searchWeight_of_suffix (ic : Bool) :
    ∀ (pre rest : List Char), (matchWeightAt ic rest).isSome = true →
      (searchWeight ic (pre ++ rest)).isSome = true := by
  intro pre
  induction pre with
  | nil =>
    intro rest h
    cases rest with
    | nil => exact absurd h (by simp [matchWeightAt, parseSign])
    | cons c t =>
      simp only [List.nil_append, searchWeight]
      cases hm : matchWeightAt ic (c :: t) with
      | some g => simp
      | none => rw [hm] at h; exact absurd h (by simp)
  | cons p pre ih =>
    intro rest h
    simp only [List.cons_append, searchWeight]
    cases hm : matchWeightAt ic (p :: (pre ++ rest)) with
    | some g => simp
    | none => exact ih rest h

lemma searchWeight_shape (ic : Bool) :
    ∀ (cs g : List Char), searchWeight ic cs = some g →
      ∃ tail, matchWeightAt ic tail = some g := by
  intro cs
  induction cs with
  | nil =>
    intro g h
    exact absurd h (by simp [searchWeight])
  | cons c t ih =>
    intro g h
    simp only [searchWeight] at h
    cases hm : matchWeightAt ic (c :: t) with
    | some g2 =>
      rw [hm] at h
      exact ⟨c :: t, by rw [hm]; exact h⟩
    | none =>
      rw [hm] at h
      exact ih g h

/-- Claim C5 counterexample: the line "+ 0.0335KG" contains a signed
decimal loosely followed by the unit letters in upper case, the
IGNORECASE parser of label.py extracts 0.0335 from it, but the
case-sensitive VALUE_RE parser of scale.py extracts nothing. -/
theorem kg_marker_case_cex :
    scaleLineValue "+ 0.0335KG" = none
      ∧ labelLineValue "+ 0.0335KG" = some (mkRat 335 10000) :=
  ⟨by decide, by decide⟩

/-- Claim C5 amended: label.py's SCALE_VALUE_RE is compiled with
IGNORECASE, so for every line containing a signed decimal number
loosely followed by the letters k and g in any case the label parser
extracts a numeric value; scale.py's VALUE_RE has no IGNORECASE flag
and only matches the lower-case unit, e.g. it parses "+ 0.0335kg" but
not "+ 0.0335KG". -/
theorem kg_marker_case_amended :
    (∀ (pre sign ds frac ws post : List Char) (u1 u2 : Char),
        (sign = [] ∨ sign = ['+'] ∨ sign = ['-']) →
        ds ≠ [] → (∀ c ∈ ds, c.isDigit = true) →
        (frac = [] ∨ ∃ fds, fds ≠ [] ∧ (∀ c ∈ fds, c.isDigit = true) ∧ frac = '.' :: fds) →
        (∀ c ∈ ws, c.isWhitespace = true) →
        (u1 = 'k' ∨ u1 = 'K') → (u2 = 'g' ∨ u2 = 'G') →
        (labelLineValue (String.mk
            (pre ++ sign ++ ds ++ frac ++ ws ++ u1 :: u2 :: post))).isSome = true)
      ∧ scaleLineValue "+ 0.0335kg" = some (mkRat 335 10000)
      ∧ scaleLineValue "+ 0.0335KG" = none
      ∧ labelLineValue "+ 0.0335KG" = some (mkRat 335 10000) := by
  refine ⟨?_, by decide, by decide, by decide⟩
  intro pre sign ds frac ws post u1 u2 hsign hds hdsd hfrac hws hu1 hu2
  have hmatch := matchWeightAt_parts sign ds frac ws post u1 u2 hsign hds hdsd hfrac hws hu1 hu2
  have hsearch : (searchWeight true
      (pre ++ (sign ++ ds ++ frac ++ ws ++ u1 :: u2 :: post))).isSome = true :=
    searchWeight_of_suffix true pre _ (by rw [hmatch]; rfl)
  have hassoc : pre ++ sign ++ ds ++ frac ++ ws ++ u1 :: u2 :: post
      = pre ++ (sign ++ ds ++ frac ++ ws ++ u1 :: u2 :: post) := by
    simp [List.append_assoc]
  unfold labelLineValue
  rw [toList_mk, hassoc]
  obtain ⟨g, hg⟩ := Option.isSome_iff_exists.mp hsearch
  rw [hg]
  obtain ⟨tail, htail⟩ := searchWeight_shape true _ g hg
  obtain ⟨s2, d2, f2, rfl, hs2, hd2, hdd2, hf2⟩ := matchWeightAt_shape true tail _ htail
  exact pyFloat_parts s2 d2 f2 hs2 hd2 hdd2 hf2

theorem kg_marker_case_amended_witness :
    (labelLineValue (String.mk
        (['+', ' '] ++ [] ++ ['0'] ++ ['.', '0', '3', '3', '5'] ++ []
          ++ 'K' :: 'G' :: []))).isSome = true :=
  kg_marker_case_amended.1 ['+', ' '] [] ['0'] ['.', '0', '3', '3', '5'] [] [] 'K' 'G'
    (Or.inl rfl) (by decide) (by decide)
    (Or.inr ⟨['0', '3', '3', '5'], by decide, by decide, rfl⟩) (by decide)
    (Or.inr rfl) (Or.inr rfl)

/-! ## Label field configuration data (label.py lines 81-141) and the
field loop of build_label_image (label.py lines 354-413) -/

/-- LABEL_FIELD_DEFS (label.py 81-97): known field keys and labels. -/
def LABEL_FIELD_DEFS : List (String × String) :=
  [("cut_name", "Cut"), ("weight_kg", "Weight KG"), ("price_per_kg", "Price / KG"),
   ("tax", "Tax"), ("total_price", "Total price"), ("farm_name", "Farm"),
   ("logo_path", "Logo"), ("animal_number", "Animal Number"),
   ("farm_number", "Farm Number"), ("due_date_4_7", "Due date 4-7"),
   ("due_date_frozen", "Due date frozen"), ("birth_country", "Birth Country"),
   ("life_country", "Life Country"), ("slaughter_country", "Slaugther Country"),
   ("packaged_country", "Packaged Country")]

/-- The reserved key pattern marking free-text lines (label.py 99). -/
def EMPTY_LINE_KEY_START : String := "__empty_line__"

/-- is_empty_line_key (label.py 127-128). -/
def is_empty_line_key (k : String) : Bool :=
  List.isPrefixOf EMPTY_LINE_KEY_START.toList k.toList

/-- The LABEL_FIELD_LABELS dictionary lookup (label.py 98). -/
def LABEL_FIELD_LABELS (k : String) : Option String :=
  (LABEL_FIELD_DEFS.find? (fun p => decide (p.1 = k))).map Prod.snd

/-- normalize_label_line_spacing (label.py 142-147): unparsable input
falls back to the default 8, then the value clamps to the range zero to
one hundred twenty. -/
def normalize_label_line_spacing (v : Option ℤ) : ℤ := max 0 (min 120 (v.getD 8))

/-- One text draw call at a position of the label canvas. -/
inductive DrawOp where
  | text : ℤ → ℤ → String → DrawOp
deriving DecidableEq

/-- One entry of the field config as build_label_image reads it: a dict
whose keys may be absent (modelled by none).  showFlag models the
"show" key, absent meaning shown. -/
structure RawDrawEntry where
  key : Option String
  print_name : Option String
  showFlag : Option Bool
  font_size : Option ℤ
deriving DecidableEq

/-- The left margin of the label canvas (label.py 358). -/
def labelMargin : ℤ := 28

/-- The body of the field loop of build_label_image (label.py 383-413)
for one entry: given the draw ops so far and the vertical cursor,
produce the new ops and cursor. -/
def labelFieldStep (values : String → Option String) (spacing : ℤ)
    (acc : List DrawOp × ℤ) (entry : RawDrawEntry) : List DrawOp × ℤ :=
  if (entry.showFlag.getD true) = false then acc
  else
    let key := pyStrip (entry.key.getD "")
    let fontSize := max 8 (min 120 (entry.font_size.getD 24))
    if is_empty_line_key key then
      let freeText := pyStrip (entry.print_name.getD "")
      (if freeText = "" then acc.1 else acc.1 ++ [DrawOp.text labelMargin acc.2 freeText],
        acc.2 + fontSize + spacing)
    else if key = "logo_path" then acc
    else
      let value := pyStrip ((values key).getD "")
      if value = "" then acc
      else
        let printName := pyStrip (entry.print_name.getD ((LABEL_FIELD_LABELS key).getD key))
        let line := if printName = "" then value else printName ++ ": " ++ value
        (acc.1 ++ [DrawOp.text labelMargin acc.2 line], acc.2 + fontSize + spacing)

/-- The whole field loop: fold over the config entries starting at the
top margin with the normalized line spacing. -/
def build_label_fields (values : String → Option String) (cfg : List RawDrawEntry)
    (line_spacing : Option ℤ) : List DrawOp × ℤ :=
  cfg.foldl (labelFieldStep values (normalize_label_line_spacing line_spacing)) ([], labelMargin)

/-- Claim C6: in the field loop of build_label_image, a shown free-text
entry always advances the cursor by its clamped font size plus the line
spacing whether or not its text is empty; a shown normal field with an
empty value draws nothing and leaves the cursor unchanged; a shown
normal field with a non-empty value draws print_name, a colon and the
value (or the bare value when print_name is empty) and advances the
cursor by its clamped font size plus the line spacing. -/
theorem label_field_cursor_rules (values : String → Option String) (spacing y : ℤ)
    (ops : List DrawOp) (e : RawDrawEntry) (hshow : e.showFlag.getD true = true) :
    (is_empty_line_key (pyStrip (e.key.getD "")) = true →
        (labelFieldStep values spacing (ops, y) e).2
          = y + max 8 (min 120 (e.font_size.getD 24)) + spacing)
      ∧ (is_empty_line_key (pyStrip (e.key.getD "")) = false →
          pyStrip (e.key.getD "") ≠ "logo_path" →
          pyStrip ((values (pyStrip (e.key.getD ""))).getD "") = "" →
          labelFieldStep values spacing (ops, y) e = (ops, y))
      ∧ (∀ v : String, is_empty_line_key (pyStrip (e.key.getD "")) = false →
          pyStrip (e.key.getD "") ≠ "logo_path" →
          pyStrip ((values (pyStrip (e.key.getD ""))).getD "") = v → v ≠ "" →
          labelFieldStep values spacing (ops, y) e
            = (ops ++ [DrawOp.text labelMargin y
                (if pyStrip (e.print_name.getD
                      ((LABEL_FIELD_LABELS (pyStrip (e.key.getD ""))).getD
                        (pyStrip (e.key.getD "")))) = ""
                 then v
                 else pyStrip (e.print_name.getD
                      ((LABEL_FIELD_LABELS (pyStrip (e.key.getD ""))).getD
                        (pyStrip (e.key.getD "")))) ++ ": " ++ v)],
               y + max 8 (min 120 (e.font_size.getD 24)) + spacing)) := by
  refine ⟨?_, ?_, ?_⟩
  · intro hel
    simp [labelFieldStep, hshow, hel]
  · intro h1 h2 h3
    simp [labelFieldStep, hshow, h1, h2, h3]
  · intro v h1 h2 h3 h4
    simp [labelFieldStep, hshow, h1, h2, h3, h4]

theorem label_field_cursor_rules_witness :
    labelFieldStep (fun k => if k = "cut_name" then some " Ribeye " else none) 8 ([], 28)
        ⟨some "cut_name", some "Cut", some true, some 30⟩
      = ([DrawOp.text 28 28 "Cut: Ribeye"], 66) := by
  have h := (label_field_cursor_rules
      (fun k => if k = "cut_name" then some " Ribeye " else none) 8 28 []
      ⟨some "cut_name", some "Cut", some true, some 30⟩ (by decide)).2.2
    "Ribeye" (by decide) (by decide) (by decide) (by decide)
  rw [h]
  decide

/-! ## Label field config normalization and the save/load payload
(label.py lines 104-124, 131-139, 150-241) -/

/-- One normalized label field entry: key, print name, visibility and
font size (showFlag models the "show" key). -/
structure FieldEntry where
  key : String
  print_name : String
  showFlag : Bool
  font_size : ℤ
deriving DecidableEq

/-- default_label_field_config (label.py 104-124): one default entry
per known key, logo hidden, then the font-size adjustments. -/
def default_label_field_config : List FieldEntry :=
  (LABEL_FIELD_DEFS.map fun p =>
    ({ key := p.1, print_name := p.2, showFlag := decide (p.1 ≠ "logo_path"),
       font_size := 24 } : FieldEntry)).map
    fun e =>
      if e.key = "cut_name" then { e with font_size := 52 }
      else if e.key = "weight_kg" ∨ e.key = "total_price" then { e with font_size := 34 }
      else if e.key = "farm_name" then { e with font_size := 28 }
      else e

/-- The defaults_by_key dictionary (label.py 151). -/
def defaults_by_key (k : String) : Option FieldEntry :=
  default_label_field_config.find? (fun e => decide (e.key = k))

/-- make_empty_line_entry for a given key (label.py 131-139). -/
def make_empty_line_entry (k : String) : FieldEntry :=
  { key := k, print_name := "", showFlag := true, font_size := 24 }

/-- One raw item of a loaded config list: not a dict, or a dict whose
four keys may each be absent (none also covers values that fail int
conversion for font_size). -/
inductive RawConfigItem where
  | notDict : RawConfigItem
  | dict : Option String → Option String → Option Bool → Option ℤ → RawConfigItem
deriving DecidableEq

/-- The entry built by the body of the normalization loop (label.py
178-196): present print_name is stripped, absent fields fall back to
the default entry, the font size clamps to the range 8 to 120. -/
def mkNormalizedEntry (key : String) (pn : Option String) (sh : Option Bool)
    (fs : Option ℤ) (de : FieldEntry) : FieldEntry :=
  { key := key
    print_name := pyStrip (pn.getD de.print_name)
    showFlag := sh.getD de.showFlag
    font_size := max 8 (min 120 (fs.getD de.font_size)) }

/-- The main loop of normalize_label_field_config (label.py 156-196)
carrying the seen_defaults and seen_custom sets as lists. -/
def normalizeLoop : List RawConfigItem → List String → List String →
    List FieldEntry × List String × List String
  | [], sd, sc => ([], sd, sc)
  | RawConfigItem.notDict :: rest, sd, sc => normalizeLoop rest sd sc
  | RawConfigItem.dict k pn sh fs :: rest, sd, sc =>
    if pyStrip (k.getD "") = "" then normalizeLoop rest sd sc
    else
      match defaults_by_key (pyStrip (k.getD "")) with
      | some de =>
        if pyStrip (k.getD "") ∈ sd then normalizeLoop rest sd sc
        else
          (mkNormalizedEntry (pyStrip (k.getD "")) pn sh fs de
              :: (normalizeLoop rest (pyStrip (k.getD "") :: sd) sc).1,
            (normalizeLoop rest (pyStrip (k.getD "") :: sd) sc).2.1,
            (normalizeLoop rest (pyStrip (k.getD "") :: sd) sc).2.2)
      | none =>
        if is_empty_line_key (pyStrip (k.getD "")) then
          if pyStrip (k.getD "") ∈ sc then normalizeLoop rest sd sc
          else
            (mkNormalizedEntry (pyStrip (k.getD "")) pn sh fs
                (make_empty_line_entry (pyStrip (k.getD "")))
                :: (normalizeLoop rest sd (pyStrip (k.getD "") :: sc)).1,
              (normalizeLoop rest sd (pyStrip (k.getD "") :: sc)).2.1,
              (normalizeLoop rest sd (pyStrip (k.getD "") :: sc)).2.2)
        else normalizeLoop rest sd sc

/-- The trailing loop of normalize_label_field_config (label.py
198-208): append the default entry of every known key not seen. -/
def appendMissing (sd : List String) : List FieldEntry :=
  LABEL_FIELD_DEFS.filterMap (fun p => if p.1 ∈ sd then none else defaults_by_key p.1)

/-- normalize_label_field_config (label.py 150-210). -/
def normalize_label_field_config (items : List RawConfigItem) : List FieldEntry :=
  (normalizeLoop items [] []).1 ++ appendMissing (normalizeLoop items [] []).2.1

/-- A normalized entry written back as a raw dict with all keys
present, as json round-tripping produces it. -/
def fieldEntryToRaw (e : FieldEntry) : RawConfigItem :=
  RawConfigItem.dict (some e.key) (some e.print_name) (some e.showFlag) (some e.font_size)

/-- The payload dict written by save_label_field_config (label.py
233-241). -/
structure LabelConfigPayload where
  line_spacing : ℤ
  fields : List FieldEntry
deriving DecidableEq

/-- save_label_field_config modelled as producing the payload value
(file writing is the external collaborator). -/
def save_label_field_config (items : List RawConfigItem) (spacing : Option ℤ) :
    LabelConfigPayload :=
  { line_spacing := normalize_label_line_spacing spacing
    fields := normalize_label_field_config items }

/-- parse_label_config_payload (label.py 213-221) on a dict payload. -/
def parse_label_config_payload (p : LabelConfigPayload) : List FieldEntry × ℤ :=
  (normalize_label_field_config (p.fields.map fieldEntryToRaw),
    normalize_label_line_spacing (some p.line_spacing))

/-- An entry is in normal form: non-empty stripped key, stripped print
name, clamped font size, and a key that is known or free-text. -/
def goodEntry (e : FieldEntry) : Prop :=
  e.key ≠ "" ∧ pyStrip e.key = e.key ∧ pyStrip e.print_name = e.print_name
    ∧ 8 ≤ e.font_size ∧ e.font_size ≤ 120
    ∧ ((defaults_by_key e.key).isSome = true ∨ is_empty_line_key e.key = true)

lemma dropWhile_head_fails {p : Char → Bool} (l : List Char) :
    ∀ y, (l.dropWhile p).head? = some y → p y = false := by
  induction l with
  | nil => intro y hy; simp at hy
  | cons c t ih =>
    intro y hy
    by_cases h : p c = true
    · rw [List.dropWhile_cons, if_pos h] at hy
      exact ih y hy
    · rw [List.dropWhile_cons, if_neg h] at hy
      simp only [List.head?_cons, Option.some.injEq] at hy
      subst hy
      exact Bool.eq_false_iff.mpr h

lemma dropWhile_eq_self_of_head {p : Char → Bool} (l : List Char)
    (h : ∀ y, l.head? = some y → p y = false) : l.dropWhile p = l := by
  cases l with
  | nil => rfl
  | cons c t =>
    rw [List.dropWhile_cons, if_neg]
    simp [h c rfl]

lemma backStrip_head {p : Char → Bool} (m : List Char)
    (h : ∀ y, m.head? = some y → p y = false) :
    ∀ y, ((m.reverse.dropWhile p).reverse).head? = some y → p y = false := by
  intro y hy
  have hpre : (m.reverse.dropWhile p).reverse <+: m := by
    have hsuf : m.reverse.dropWhile p <:+ m.reverse := List.dropWhile_suffix p
    have := List.reverse_prefix.mpr hsuf
    simpa using this
  obtain ⟨t, ht⟩ := hpre
  rcases hcase : (m.reverse.dropWhile p).reverse with _ | ⟨c, cs⟩
  · rw [hcase] at hy; simp at hy
  · rw [hcase] at hy ht
    simp only [List.head?_cons, Option.some.injEq] at hy
    subst hy
    refine h c ?_
    rw [← ht]
    simp

lemma stripChars_head {l : List Char} :
    ∀ y, (stripChars l).head? = some y → Char.isWhitespace y = false := by
  unfold stripChars
  exact backStrip_head (l.dropWhile Char.isWhitespace) (dropWhile_head_fails l)

lemma stripChars_last {l : List Char} :
    ∀ y, (stripChars l).reverse.head? = some y → Char.isWhitespace y = false := by
  intro y hy
  unfold stripChars at hy
  rw [List.reverse_reverse] at hy
  exact dropWhile_head_fails _ y hy

lemma stripChars_idem (l : List Char) : stripChars (stripChars l) = stripChars l := by
  have h1 : (stripChars l).dropWhile Char.isWhitespace = stripChars l :=
    dropWhile_eq_self_of_head _ stripChars_head
  have h2 : (stripChars l).reverse.dropWhile Char.isWhitespace = (stripChars l).reverse :=
    dropWhile_eq_self_of_head _ stripChars_last
  show (((stripChars l).dropWhile Char.isWhitespace).reverse.dropWhile
      Char.isWhitespace).reverse = stripChars l
  rw [h1, h2, List.reverse_reverse]

lemma pyStrip_idem (s : String) : pyStrip (pyStrip s) = pyStrip s := by
  unfold pyStrip
  rw [toList_mk, stripChars_idem]

lemma defaults_by_key_spec (k : String) (e : FieldEntry) (h : defaults_by_key k = some e) :
    e ∈ default_label_field_config ∧ e.key = k := by
  refine ⟨List.mem_of_find?_eq_some h, ?_⟩
  have h2 := List.find?_some h
  exact of_decide_eq_true h2

instance goodEntryDecidable (e : FieldEntry) : Decidable (goodEntry e) :=
  inferInstanceAs (Decidable (e.key ≠ "" ∧ pyStrip e.key = e.key
    ∧ pyStrip e.print_name = e.print_name ∧ 8 ≤ e.font_size ∧ e.font_size ≤ 120
    ∧ ((defaults_by_key e.key).isSome = true ∨ is_empty_line_key e.key = true)))

lemma defaults_all_good : ∀ e ∈ default_label_field_config, goodEntry e := by decide

lemma defaults_not_empty_key :
    ∀ e ∈ default_label_field_config, is_empty_line_key e.key = false := by decide

lemma defaults_pairwise :
    List.Pairwise (fun a b => a.key ≠ b.key) default_label_field_config := by decide

lemma defs_pairwise : List.Pairwise (fun a b => a.1 ≠ b.1) LABEL_FIELD_DEFS := by decide

lemma defs_have_defaults :
    ∀ p ∈ LABEL_FIELD_DEFS, (defaults_by_key p.1).isSome = true := by decide

lemma known_not_empty (k : String) (h : (defaults_by_key k).isSome = true) :
    is_empty_line_key k = false := by
  obtain ⟨e, he⟩ := Option.isSome_iff_exists.mp h
  obtain ⟨hmem, hkey⟩ := defaults_by_key_spec k e he
  rw [← hkey]
  exact defaults_not_empty_key e hmem

lemma mkNormalizedEntry_good (key : String) (pn : Option String) (sh : Option Bool)
    (fs : Option ℤ) (de : FieldEntry) (hk1 : key ≠ "") (hk2 : pyStrip key = key)
    (hkind : (defaults_by_key key).isSome = true ∨ is_empty_line_key key = true) :
    goodEntry (mkNormalizedEntry key pn sh fs de) := by
  refine ⟨hk1, hk2, pyStrip_idem _, le_max_left _ _,
    max_le (by norm_num) (min_le_left _ _), hkind⟩

lemma mkNormalizedEntry_fix (e de : FieldEntry) (hg : goodEntry e) :
    mkNormalizedEntry e.key (some e.print_name) (some e.showFlag) (some e.font_size) de
      = e := by
  obtain ⟨_, _, h3, h4, h5, _⟩ := hg
  have hf : max 8 (min 120 e.font_size) = e.font_size := by
    rw [min_eq_right h5, max_eq_right h4]
  obtain ⟨k, p, sB, f⟩ := e
  simp only [mkNormalizedEntry, Option.getD_some] at *
  simp [h3, hf]

lemma normalizeLoop_dict_skip (k : Option String) (pn : Option String) (sh : Option Bool)
    (fs : Option ℤ) (rest : List RawConfigItem) (sd sc : List String)
    (h : pyStrip (k.getD "") = "" ∨ (defaults_by_key (pyStrip (k.getD "")) = none
          ∧ is_empty_line_key (pyStrip (k.getD "")) = false)
        ∨ ((defaults_by_key (pyStrip (k.getD ""))).isSome = true
            ∧ pyStrip (k.getD "") ∈ sd)
        ∨ (defaults_by_key (pyStrip (k.getD "")) = none
            ∧ is_empty_line_key (pyStrip (k.getD "")) = true
            ∧ pyStrip (k.getD "") ∈ sc)) :
    normalizeLoop (RawConfigItem.dict k pn sh fs :: rest) sd sc
      = normalizeLoop rest sd sc := by
  rcases h with h | ⟨h1, h2⟩ | ⟨h1, h2⟩ | ⟨h1, h2, h3⟩
  · simp [normalizeLoop, h]
  · by_cases hk : pyStrip (k.getD "") = ""
    · simp [normalizeLoop, hk]
    · simp [normalizeLoop, hk, h1, h2]
  · obtain ⟨de, hde⟩ := Option.isSome_iff_exists.mp h1
    have hk : pyStrip (k.getD "") ≠ "" := by
      intro he
      have := defaults_by_key_spec _ de hde
      have h3 := defaults_all_good de this.1
      rw [he] at this
      exact h3.1 this.2
    simp [normalizeLoop, hk, hde, h2]
  · by_cases hk : pyStrip (k.getD "") = ""
    · simp [normalizeLoop, hk]
    · simp [normalizeLoop, hk, h1, h2, h3]

lemma normalizeLoop_dict_known (k : Option String) (pn : Option String) (sh : Option Bool)
    (fs : Option ℤ) (rest : List RawConfigItem) (sd sc : List String) (de : FieldEntry)
    (hd : defaults_by_key (pyStrip (k.getD "")) = some de)
    (hmem : pyStrip (k.getD "") ∉ sd) :
    normalizeLoop (RawConfigItem.dict k pn sh fs :: rest) sd sc
      = (mkNormalizedEntry (pyStrip (k.getD "")) pn sh fs de
            :: (normalizeLoop rest (pyStrip (k.getD "") :: sd) sc).1,
          (normalizeLoop rest (pyStrip (k.getD "") :: sd) sc).2.1,
          (normalizeLoop rest (pyStrip (k.getD "") :: sd) sc).2.2) := by
  have hk : pyStrip (k.getD "") ≠ "" := by
    intro he
    have hspec := defaults_by_key_spec _ de hd
    have hg := defaults_all_good de hspec.1
    rw [he] at hspec
    exact hg.1 hspec.2
  simp [normalizeLoop, hk, hd, hmem]

lemma normalizeLoop_dict_custom (k : Option String) (pn : Option String) (sh : Option Bool)
    (fs : Option ℤ) (rest : List RawConfigItem) (sd sc : List String)
    (hk : pyStrip (k.getD "") ≠ "")
    (hd : defaults_by_key (pyStrip (k.getD "")) = none)
    (hel : is_empty_line_key (pyStrip (k.getD "")) = true)
    (hmem : pyStrip (k.getD "") ∉ sc) :
    normalizeLoop (RawConfigItem.dict k pn sh fs :: rest) sd sc
      = (mkNormalizedEntry (pyStrip (k.getD "")) pn sh fs
            (make_empty_line_entry (pyStrip (k.getD "")))
            :: (normalizeLoop rest sd (pyStrip (k.getD "") :: sc)).1,
          (normalizeLoop rest sd (pyStrip (k.getD "") :: sc)).2.1,
          (normalizeLoop rest sd (pyStrip (k.getD "") :: sc)).2.2) := by
  simp [normalizeLoop, hk, hd, hel, hmem]

lemma loopSeen : ∀ (items : List RawConfigItem) (sd sc : List String),
    (∀ x ∈ sd, x ∈ (normalizeLoop items sd sc).2.1)
      ∧ (∀ x ∈ sc, x ∈ (normalizeLoop items sd sc).2.2)
      ∧ (∀ x, x ∈ (normalizeLoop items sd sc).2.1 →
          x ∈ sd ∨ ∃ e ∈ (normalizeLoop items sd sc).1,
            e.key = x ∧ (defaults_by_key x).isSome = true) := by
  intro items
  induction items with
  | nil =>
    intro sd sc
    exact ⟨fun x h => h, fun x h => h, fun x h => Or.inl h⟩
  | cons item rest ih =>
    intro sd sc
    cases item with
    | notDict => exact ih sd sc
    | dict k pn sh fs =>
      by_cases hk : pyStrip (k.getD "") = ""
      · rw [normalizeLoop_dict_skip k pn sh fs rest sd sc (Or.inl hk)]
        exact ih sd sc
      · cases hd : defaults_by_key (pyStrip (k.getD "")) with
        | none =>
          by_cases hel : is_empty_line_key (pyStrip (k.getD "")) = true
          · by_cases hmem : pyStrip (k.getD "") ∈ sc
            · rw [normalizeLoop_dict_skip k pn sh fs rest sd sc
                (Or.inr (Or.inr (Or.inr ⟨hd, hel, hmem⟩)))]
              exact ih sd sc
            · rw [normalizeLoop_dict_custom k pn sh fs rest sd sc hk hd hel hmem]
              refine ⟨?_, ?_, ?_⟩
              · intro x hx
                exact (ih sd (pyStrip (k.getD "") :: sc)).1 x hx
              · intro x hx
                exact (ih sd (pyStrip (k.getD "") :: sc)).2.1 x (by simp [hx])
              · intro x hx
                rcases (ih sd (pyStrip (k.getD "") :: sc)).2.2 x hx with h | ⟨e, he, hkey, hsome⟩
                · exact Or.inl h
                · exact Or.inr ⟨e, by simp [he], hkey, hsome⟩
          · rw [normalizeLoop_dict_skip k pn sh fs rest sd sc
              (Or.inr (Or.inl ⟨hd, by simpa using hel⟩))]
            exact ih sd sc
        | some de =>
          by_cases hmem : pyStrip (k.getD "") ∈ sd
          · rw [normalizeLoop_dict_skip k pn sh fs rest sd sc
              (Or.inr (Or.inr (Or.inl ⟨by simp [hd], hmem⟩)))]
            exact ih sd sc
          · rw [normalizeLoop_dict_known k pn sh fs rest sd sc de hd hmem]
            refine ⟨?_, ?_, ?_⟩
            · intro x hx
              exact (ih (pyStrip (k.getD "") :: sd) sc).1 x (by simp [hx])
            · intro x hx
              exact (ih (pyStrip (k.getD "") :: sd) sc).2.1 x hx
            · intro x hx
              rcases (ih (pyStrip (k.getD "") :: sd) sc).2.2 x hx with h | ⟨e, he, hkey, hsome⟩
              · rcases List.mem_cons.mp h with h2 | h2
                · subst h2
                  exact Or.inr ⟨mkNormalizedEntry (pyStrip (k.getD "")) pn sh fs de,
                    by simp, rfl, by simp [hd]⟩
                · exact Or.inl h2
              · exact Or.inr ⟨e, by simp [he], hkey, hsome⟩

lemma loopGood : ∀ (items : List RawConfigItem) (sd sc : List String),
    ∀ e ∈ (normalizeLoop items sd sc).1,
      goodEntry e
        ∧ ((defaults_by_key e.key).isSome = true →
            e.key ∉ sd ∧ e.key ∈ (normalizeLoop items sd sc).2.1)
        ∧ (defaults_by_key e.key = none →
            is_empty_line_key e.key = true ∧ e.key ∉ sc) := by
  intro items
  induction items with
  | nil =>
    intro sd sc e he
    simp [normalizeLoop] at he
  | cons item rest ih =>
    intro sd sc
    cases item with
    | notDict => exact ih sd sc
    | dict k pn sh fs =>
      by_cases hk : pyStrip (k.getD "") = ""
      · rw [normalizeLoop_dict_skip k pn sh fs rest sd sc (Or.inl hk)]
        exact ih sd sc
      · cases hd : defaults_by_key (pyStrip (k.getD "")) with
        | none =>
          by_cases hel : is_empty_line_key (pyStrip (k.getD "")) = true
          · by_cases hmem : pyStrip (k.getD "") ∈ sc
            · rw [normalizeLoop_dict_skip k pn sh fs rest sd sc
                (Or.inr (Or.inr (Or.inr ⟨hd, hel, hmem⟩)))]
              exact ih sd sc
            · rw [normalizeLoop_dict_custom k pn sh fs rest sd sc hk hd hel hmem]
              intro e he
              rcases List.mem_cons.mp he with he2 | he2
              · subst he2
                refine ⟨mkNormalizedEntry_good _ pn sh fs _ hk (pyStrip_idem _)
                  (Or.inr hel), ?_, ?_⟩
                · intro hsome
                  simp [mkNormalizedEntry] at hsome
                  simp [hd] at hsome
                · intro _
                  exact ⟨hel, hmem⟩
              · have h3 := ih sd (pyStrip (k.getD "") :: sc) e he2
                refine ⟨h3.1, h3.2.1, ?_⟩
                intro hn
                refine ⟨(h3.2.2 hn).1, ?_⟩
                intro hsc
                exact (h3.2.2 hn).2 (by simp [hsc])
          · rw [normalizeLoop_dict_skip k pn sh fs rest sd sc
              (Or.inr (Or.inl ⟨hd, by simpa using hel⟩))]
            exact ih sd sc
        | some de =>
          by_cases hmem : pyStrip (k.getD "") ∈ sd
          · rw [normalizeLoop_dict_skip k pn sh fs rest sd sc
              (Or.inr (Or.inr (Or.inl ⟨by simp [hd], hmem⟩)))]
            exact ih sd sc
          · rw [normalizeLoop_dict_known k pn sh fs rest sd sc de hd hmem]
            intro e he
            rcases List.mem_cons.mp he with he2 | he2
            · subst he2
              refine ⟨mkNormalizedEntry_good _ pn sh fs _ hk (pyStrip_idem _)
                (Or.inl (by simp [hd])), ?_, ?_⟩
              · intro _
                refine ⟨hmem, ?_⟩
                exact (loopSeen rest (pyStrip (k.getD "") :: sd) sc).1 _
                  (by simp [mkNormalizedEntry])
              · intro hn
                simp [mkNormalizedEntry] at hn
                simp [hd] at hn
            · have h3 := ih (pyStrip (k.getD "") :: sd) sc e he2
              refine ⟨h3.1, ?_, h3.2.2⟩
              intro hsome
              refine ⟨?_, (h3.2.1 hsome).2⟩
              intro hsd
              exact (h3.2.1 hsome).1 (by simp [hsd])

lemma loopPairwise : ∀ (items : List RawConfigItem) (sd sc : List String),
    List.Pairwise (fun a b => a.key ≠ b.key) (normalizeLoop items sd sc).1 := by
  intro items
  induction items with
  | nil =>
    intro sd sc
    simp [normalizeLoop]
  | cons item rest ih =>
    intro sd sc
    cases item with
    | notDict => exact ih sd sc
    | dict k pn sh fs =>
      by_cases hk : pyStrip (k.getD "") = ""
      · rw [normalizeLoop_dict_skip k pn sh fs rest sd sc (Or.inl hk)]
        exact ih sd sc
      · cases hd : defaults_by_key (pyStrip (k.getD "")) with
        | none =>
          by_cases hel : is_empty_line_key (pyStrip (k.getD "")) = true
          · by_cases hmem : pyStrip (k.getD "") ∈ sc
            · rw [normalizeLoop_dict_skip k pn sh fs rest sd sc
                (Or.inr (Or.inr (Or.inr ⟨hd, hel, hmem⟩)))]
              exact ih sd sc
            · rw [normalizeLoop_dict_custom k pn sh fs rest sd sc hk hd hel hmem]
              refine List.pairwise_cons.mpr ⟨?_, ih sd (pyStrip (k.getD "") :: sc)⟩
              intro e2 he2
              have h3 := loopGood rest sd (pyStrip (k.getD "") :: sc) e2 he2
              intro heq
              rw [show (mkNormalizedEntry (pyStrip (k.getD "")) pn sh fs
                (make_empty_line_entry (pyStrip (k.getD "")))).key
                  = pyStrip (k.getD "") from rfl] at heq
              cases hd2 : defaults_by_key e2.key with
              | some de2 =>
                rw [← heq, hd] at hd2
                exact Option.noConfusion hd2
              | none =>
                exact (h3.2.2 hd2).2 (by simp [← heq])
          · rw [normalizeLoop_dict_skip k pn sh fs rest sd sc
              (Or.inr (Or.inl ⟨hd, by simpa using hel⟩))]
            exact ih sd sc
        | some de =>
          by_cases hmem : pyStrip (k.getD "") ∈ sd
          · rw [normalizeLoop_dict_skip k pn sh fs rest sd sc
              (Or.inr (Or.inr (Or.inl ⟨by simp [hd], hmem⟩)))]
            exact ih sd sc
          · rw [normalizeLoop_dict_known k pn sh fs rest sd sc de hd hmem]
            refine List.pairwise_cons.mpr ⟨?_, ih (pyStrip (k.getD "") :: sd) sc⟩
            intro e2 he2
            have h3 := loopGood rest (pyStrip (k.getD "") :: sd) sc e2 he2
            intro heq
            rw [show (mkNormalizedEntry (pyStrip (k.getD "")) pn sh fs de).key
                = pyStrip (k.getD "") from rfl] at heq
            cases hd2 : defaults_by_key e2.key with
            | some de2 =>
              exact (h3.2.1 (by simp [hd2])).1 (by simp [← heq])
            | none =>
              rw [← heq, hd] at hd2
              exact Option.noConfusion hd2


lemma loopCount : ∀ (items : List RawConfigItem) (sd sc : List String) (kk : String),
    (defaults_by_key kk).isSome = true →
    ((normalizeLoop items sd sc).1.filter (fun e => decide (e.key = kk))).length
      = if kk ∈ (normalizeLoop items sd sc).2.1 ∧ kk ∉ sd then 1 else 0 := by
  intro items
  induction items with
  | nil =>
    intro sd sc kk _
    have hni : ¬(kk ∈ sd ∧ kk ∉ sd) := fun h => h.2 h.1
    simp [normalizeLoop, hni]
  | cons item rest ih =>
    intro sd sc kk hkk
    cases item with
    | notDict => exact ih sd sc kk hkk
    | dict k pn sh fs =>
      by_cases hk : pyStrip (k.getD "") = ""
      · rw [normalizeLoop_dict_skip k pn sh fs rest sd sc (Or.inl hk)]
        exact ih sd sc kk hkk
      · cases hd : defaults_by_key (pyStrip (k.getD "")) with
        | none =>
          by_cases hel : is_empty_line_key (pyStrip (k.getD "")) = true
          · by_cases hmem : pyStrip (k.getD "") ∈ sc
            · rw [normalizeLoop_dict_skip k pn sh fs rest sd sc
                (Or.inr (Or.inr (Or.inr ⟨hd, hel, hmem⟩)))]
              exact ih sd sc kk hkk
            · rw [normalizeLoop_dict_custom k pn sh fs rest sd sc hk hd hel hmem]
              have hne : pyStrip (k.getD "") ≠ kk := by
                intro heq
                rw [heq] at hd
                rw [hd] at hkk
                exact Bool.noConfusion hkk
              have hhd : (decide ((mkNormalizedEntry (pyStrip (k.getD "")) pn sh fs
                  (make_empty_line_entry (pyStrip (k.getD "")))).key = kk)) = false := by
                simpa [mkNormalizedEntry] using hne
              simp only [List.filter_cons, hhd, Bool.false_eq_true, if_false]
              exact ih sd (pyStrip (k.getD "") :: sc) kk hkk
          · rw [normalizeLoop_dict_skip k pn sh fs rest sd sc
              (Or.inr (Or.inl ⟨hd, by simpa using hel⟩))]
            exact ih sd sc kk hkk
        | some de =>
          by_cases hmem : pyStrip (k.getD "") ∈ sd
          · rw [normalizeLoop_dict_skip k pn sh fs rest sd sc
              (Or.inr (Or.inr (Or.inl ⟨by simp [hd], hmem⟩)))]
            exact ih sd sc kk hkk
          · rw [normalizeLoop_dict_known k pn sh fs rest sd sc de hd hmem]
            by_cases hkkeq : pyStrip (k.getD "") = kk
            · subst hkkeq
              have hhd : (decide ((mkNormalizedEntry (pyStrip (k.getD "")) pn sh fs de).key
                  = pyStrip (k.getD ""))) = true := by
                simp [mkNormalizedEntry]
              simp only [List.filter_cons, hhd, if_true, List.length_cons]
              have htail := ih (pyStrip (k.getD "") :: sd) sc (pyStrip (k.getD "")) hkk
              have hni : ¬(pyStrip (k.getD "")
                    ∈ (normalizeLoop rest (pyStrip (k.getD "") :: sd) sc).2.1
                  ∧ pyStrip (k.getD "") ∉ pyStrip (k.getD "") :: sd) :=
                fun h => h.2 (by simp)
              rw [htail, if_neg hni, if_pos]
              exact ⟨(loopSeen rest (pyStrip (k.getD "") :: sd) sc).1 _ (by simp), hmem⟩
            · have hhd : (decide ((mkNormalizedEntry (pyStrip (k.getD "")) pn sh fs de).key
                  = kk)) = false := by
                simpa [mkNormalizedEntry] using hkkeq
              simp only [List.filter_cons, hhd, Bool.false_eq_true, if_false]
              rw [ih (pyStrip (k.getD "") :: sd) sc kk hkk]
              refine if_congr ?_ rfl rfl
              constructor
              · rintro ⟨ha, hb⟩
                exact ⟨ha, fun h => hb (by simp [h])⟩
              · rintro ⟨ha, hb⟩
                refine ⟨ha, ?_⟩
                intro h
                rcases List.mem_cons.mp h with h2 | h2
                · exact hkkeq h2.symm
                · exact hb h2

lemma loopFix : ∀ (es : List FieldEntry) (sd sc : List String),
    (∀ e ∈ es, goodEntry e) →
    (∀ e ∈ es, (defaults_by_key e.key).isSome = true → e.key ∉ sd) →
    (∀ e ∈ es, is_empty_line_key e.key = true → e.key ∉ sc) →
    List.Pairwise (fun a b => a.key ≠ b.key) es →
    (normalizeLoop (es.map fieldEntryToRaw) sd sc).1 = es
      ∧ (∀ kk, (defaults_by_key kk).isSome = true → (∃ e ∈ es, e.key = kk) →
          kk ∈ (normalizeLoop (es.map fieldEntryToRaw) sd sc).2.1) := by
  intro es
  induction es with
  | nil =>
    intro sd sc _ _ _ _
    refine ⟨rfl, ?_⟩
    rintro kk _ ⟨e, he, _⟩
    simp at he
  | cons e es' ih =>
    intro sd sc hgood hknown hcustom hpw
    have hge := hgood e (by simp)
    have hkey : pyStrip ((some e.key).getD "") = e.key := by
      rw [Option.getD_some]
      exact hge.2.1
    have hpwt := List.pairwise_cons.mp hpw
    simp only [List.map_cons, fieldEntryToRaw]
    cases hkind : defaults_by_key e.key with
    | some de =>
      have hd' : defaults_by_key (pyStrip ((some e.key).getD "")) = some de := by
        rw [hkey]; exact hkind
      have hmem' : pyStrip ((some e.key).getD "") ∉ sd := by
        rw [hkey]
        exact hknown e (by simp) (by simp [hkind])
      rw [normalizeLoop_dict_known (some e.key) (some e.print_name) (some e.showFlag)
        (some e.font_size) (es'.map fieldEntryToRaw) sd sc de hd' hmem']
      rw [hkey]
      have iht := ih (e.key :: sd) sc (fun x hx => hgood x (by simp [hx]))
        (fun x hx hs => by
          intro hmem2
          rcases List.mem_cons.mp hmem2 with h2 | h2
          · exact hpwt.1 x hx h2.symm
          · exact hknown x (by simp [hx]) hs h2)
        (fun x hx hs => hcustom x (by simp [hx]) hs) hpwt.2
      refine ⟨?_, ?_⟩
      · rw [iht.1, mkNormalizedEntry_fix e de hge]
      · rintro kk hks ⟨e2, he2, hk2⟩
        rcases List.mem_cons.mp he2 with h2 | h2
        · subst h2
          subst hk2
          exact (loopSeen (es'.map fieldEntryToRaw) (e2.key :: sd) sc).1 _ (by simp)
        · exact iht.2 kk hks ⟨e2, h2, hk2⟩
    | none =>
      have hel : is_empty_line_key e.key = true := by
        rcases hge.2.2.2.2.2 with hs | hs
        · rw [hkind] at hs
          exact Bool.noConfusion hs
        · exact hs
      have hd' : defaults_by_key (pyStrip ((some e.key).getD "")) = none := by
        rw [hkey]; exact hkind
      have hel' : is_empty_line_key (pyStrip ((some e.key).getD "")) = true := by
        rw [hkey]; exact hel
      have hk' : pyStrip ((some e.key).getD "") ≠ "" := by
        rw [hkey]; exact hge.1
      have hmem' : pyStrip ((some e.key).getD "") ∉ sc := by
        rw [hkey]
        exact hcustom e (by simp) hel
      rw [normalizeLoop_dict_custom (some e.key) (some e.print_name) (some e.showFlag)
        (some e.font_size) (es'.map fieldEntryToRaw) sd sc hk' hd' hel' hmem']
      rw [hkey]
      have iht := ih sd (e.key :: sc) (fun x hx => hgood x (by simp [hx]))
        (fun x hx hs => hknown x (by simp [hx]) hs)
        (fun x hx hs => by
          intro hmem2
          rcases List.mem_cons.mp hmem2 with h2 | h2
          · exact hpwt.1 x hx h2.symm
          · exact hcustom x (by simp [hx]) hs h2) hpwt.2
      refine ⟨?_, ?_⟩
      · rw [iht.1, mkNormalizedEntry_fix e _ hge]
      · rintro kk hks ⟨e2, he2, hk2⟩
        rcases List.mem_cons.mp he2 with h2 | h2
        · subst h2
          subst hk2
          rw [hkind] at hks
          exact Bool.noConfusion hks
        · exact iht.2 kk hks ⟨e2, h2, hk2⟩

lemma appendMissing_mem (sd : List String) (e : FieldEntry) (he : e ∈ appendMissing sd) :
    defaults_by_key e.key = some e ∧ e ∈ default_label_field_config ∧ e.key ∉ sd := by
  obtain ⟨p, hp, hf⟩ := List.mem_filterMap.mp he
  by_cases hmem : p.1 ∈ sd
  · rw [if_pos hmem] at hf
    exact Option.noConfusion hf
  · rw [if_neg hmem] at hf
    obtain ⟨hmemdef, hkey⟩ := defaults_by_key_spec p.1 e hf
    rw [hkey]
    exact ⟨hf, hmemdef, hmem⟩

lemma appendMissing_pairwise_aux : ∀ (defs : List (String × String)) (sd : List String),
    List.Pairwise (fun a b => a.1 ≠ b.1) defs →
    List.Pairwise (fun a b => a.key ≠ b.key)
      (defs.filterMap (fun p => if p.1 ∈ sd then none else defaults_by_key p.1)) := by
  intro defs sd
  induction defs with
  | nil =>
    intro _
    simp
  | cons p rest ihd =>
    intro hpw
    have hpw2 := List.pairwise_cons.mp hpw
    rcases hf : (if p.1 ∈ sd then none else defaults_by_key p.1) with _ | e
    · simp only [List.filterMap_cons, hf]
      exact ihd hpw2.2
    · have hmemsd : p.1 ∉ sd := by
        intro h
        rw [if_pos h] at hf
        exact Option.noConfusion hf
      have hf2 : defaults_by_key p.1 = some e := by
        rw [if_neg hmemsd] at hf
        exact hf
      have hekey : e.key = p.1 := (defaults_by_key_spec _ _ hf2).2
      simp only [List.filterMap_cons, hf]
      refine List.pairwise_cons.mpr ⟨?_, ihd hpw2.2⟩
      intro e2 he2
      obtain ⟨q, hq, hfq⟩ := List.mem_filterMap.mp he2
      have hqmemsd : q.1 ∉ sd := by
        intro h
        rw [if_pos h] at hfq
        exact Option.noConfusion hfq
      have hfq2 : defaults_by_key q.1 = some e2 := by
        rw [if_neg hqmemsd] at hfq
        exact hfq
      have he2key : e2.key = q.1 := (defaults_by_key_spec _ _ hfq2).2
      rw [hekey, he2key]
      exact hpw2.1 q hq

lemma appendMissing_count_aux : ∀ (defs : List (String × String)) (sd : List String)
    (kk : String), List.Pairwise (fun a b => a.1 ≠ b.1) defs →
    ((defs.filterMap (fun p => if p.1 ∈ sd then none else defaults_by_key p.1)).filter
        (fun e => decide (e.key = kk))).length
      = if kk ∈ defs.map Prod.fst ∧ (defaults_by_key kk).isSome = true ∧ kk ∉ sd
        then 1 else 0 := by
  intro defs
  induction defs with
  | nil =>
    intro sd kk _
    simp
  | cons p rest ihd =>
    intro sd kk hpw
    have hpw2 := List.pairwise_cons.mp hpw
    have hnotin : p.1 ∉ rest.map Prod.fst := by
      intro h
      obtain ⟨q, hq, hqe⟩ := List.mem_map.mp h
      exact hpw2.1 q hq hqe.symm
    rcases hf : (if p.1 ∈ sd then none else defaults_by_key p.1) with _ | e
    · simp only [List.filterMap_cons, hf]
      rw [ihd sd kk hpw2.2]
      refine if_congr ?_ rfl rfl
      constructor
      · rintro ⟨h1, h2⟩
        refine ⟨?_, h2⟩
        rw [List.map_cons]
        exact List.mem_cons_of_mem _ h1
      · rintro ⟨h1, h2, h3⟩
        rw [List.map_cons] at h1
        rcases List.mem_cons.mp h1 with h4 | h4
        · exfalso
          subst h4
          by_cases hmem : p.1 ∈ sd
          · exact h3 hmem
          · rw [if_neg hmem] at hf
            rw [hf] at h2
            exact Bool.noConfusion h2
        · exact ⟨h4, h2, h3⟩
    · have hmemsd : p.1 ∉ sd := by
        intro h
        rw [if_pos h] at hf
        exact Option.noConfusion hf
      have hf2 : defaults_by_key p.1 = some e := by
        rw [if_neg hmemsd] at hf
        exact hf
      have hekey : e.key = p.1 := (defaults_by_key_spec _ _ hf2).2
      by_cases hkkeq : kk = p.1
      · subst hkkeq
        have hdec : (decide (e.key = p.1)) = true := by simp [hekey]
        simp only [List.filterMap_cons, hf, List.filter_cons, hdec, if_true,
          List.length_cons]
        rw [ihd sd p.1 hpw2.2, if_neg (fun h => hnotin h.1)]
        rw [if_pos ⟨by rw [List.map_cons]; exact List.mem_cons_self _ _,
          by simp [hf2], hmemsd⟩]
      · have hdec : (decide (e.key = kk)) = false := by
          simp only [hekey, decide_eq_false_iff_not]
          exact fun h => hkkeq h.symm
        simp only [List.filterMap_cons, hf, List.filter_cons, hdec, Bool.false_eq_true,
          if_false]
        rw [ihd sd kk hpw2.2]
        refine if_congr ?_ rfl rfl
        constructor
        · rintro ⟨h1, h2⟩
          refine ⟨?_, h2⟩
          rw [List.map_cons]
          exact List.mem_cons_of_mem _ h1
        · rintro ⟨h1, h2⟩
          rw [List.map_cons] at h1
          rcases List.mem_cons.mp h1 with h4 | h4
          · exact absurd h4 hkkeq
          · exact ⟨h4, h2⟩

lemma appendMissing_empty (sd : List String) (h : ∀ p ∈ LABEL_FIELD_DEFS, p.1 ∈ sd) :
    appendMissing sd = [] := by
  rw [appendMissing, List.filterMap_eq_nil]
  intro p hp
  simp [h p hp]

lemma appendMissing_pairwise (sd : List String) :
    List.Pairwise (fun a b => a.key ≠ b.key) (appendMissing sd) :=
  appendMissing_pairwise_aux LABEL_FIELD_DEFS sd defs_pairwise

lemma out_good (L : List RawConfigItem) :
    ∀ e ∈ normalize_label_field_config L, goodEntry e := by
  intro e he
  rcases List.mem_append.mp he with h | h
  · exact (loopGood L [] [] e h).1
  · obtain ⟨_, hmem, _⟩ := appendMissing_mem _ e h
    exact defaults_all_good e hmem

lemma normalize_count (L : List RawConfigItem) :
    ∀ p ∈ LABEL_FIELD_DEFS,
      ((normalize_label_field_config L).filter (fun e => decide (e.key = p.1))).length
        = 1 := by
  intro p hp
  have hkk := defs_have_defaults p hp
  unfold normalize_label_field_config
  rw [List.filter_append, List.length_append]
  rw [loopCount L [] [] p.1 hkk]
  rw [show ((appendMissing (normalizeLoop L [] []).2.1).filter
      (fun e => decide (e.key = p.1))).length
    = if p.1 ∈ LABEL_FIELD_DEFS.map Prod.fst ∧ (defaults_by_key p.1).isSome = true
          ∧ p.1 ∉ (normalizeLoop L [] []).2.1 then 1 else 0 from
    appendMissing_count_aux LABEL_FIELD_DEFS _ p.1 defs_pairwise]
  by_cases hmem : p.1 ∈ (normalizeLoop L [] []).2.1
  · rw [if_pos ⟨hmem, by simp⟩, if_neg (fun h => h.2.2 hmem)]
  · rw [if_neg (fun h => hmem h.1),
      if_pos ⟨List.mem_map.mpr ⟨p, hp, rfl⟩, hkk, hmem⟩]

lemma normalize_pairwise (L : List RawConfigItem) :
    List.Pairwise (fun a b => a.key ≠ b.key) (normalize_label_field_config L) := by
  unfold normalize_label_field_config
  refine List.pairwise_append.mpr ⟨loopPairwise L [] [], appendMissing_pairwise _, ?_⟩
  intro e he e2 he2
  obtain ⟨hd2, _, hnot2⟩ := appendMissing_mem _ e2 he2
  intro heq
  have hsome : (defaults_by_key e.key).isSome = true := by
    rw [heq]
    simp [hd2]
  exact hnot2 (heq ▸ ((loopGood L [] [] e he).2.1 hsome).2)

lemma normalize_config_idem (M : List RawConfigItem) :
    normalize_label_field_config ((normalize_label_field_config M).map fieldEntryToRaw)
      = normalize_label_field_config M := by
  have hfix := loopFix (normalize_label_field_config M) [] [] (out_good M)
    (fun e _ _ => List.not_mem_nil e.key) (fun e _ _ => List.not_mem_nil e.key)
    (normalize_pairwise M)
  have hallkeys : ∀ p ∈ LABEL_FIELD_DEFS,
      p.1 ∈ (normalizeLoop ((normalize_label_field_config M).map fieldEntryToRaw)
        [] []).2.1 := by
    intro p hp
    have h1 := normalize_count M p hp
    have hne : (normalize_label_field_config M).filter
        (fun e => decide (e.key = p.1)) ≠ [] := by
      intro h0
      rw [h0] at h1
      simp at h1
    obtain ⟨e, hmemf⟩ := List.exists_mem_of_ne_nil _ hne
    have h2 := List.mem_filter.mp hmemf
    exact hfix.2 p.1 (defs_have_defaults p hp) ⟨e, h2.1, of_decide_eq_true h2.2⟩
  show (normalizeLoop _ [] []).1 ++ appendMissing _ = _
  rw [hfix.1, appendMissing_empty _ hallkeys, List.append_nil]

lemma spacing_idem (s : Option ℤ) :
    normalize_label_line_spacing (some (normalize_label_line_spacing s))
      = normalize_label_line_spacing s := by
  unfold normalize_label_line_spacing
  simp only [Option.getD_some]
  omega

/-- Claim C8: for every input list, normalization yields entries with
non-empty keys, every known field key appearing exactly once (defaults
appended for missing known keys, duplicates dropped), only known or
free-text keys, and font sizes within 8 to 120. -/
theorem normalize_config_invariants (L : List RawConfigItem) :
    (∀ e ∈ normalize_label_field_config L, e.key ≠ "")
      ∧ (∀ p ∈ LABEL_FIELD_DEFS,
          ((normalize_label_field_config L).filter
            (fun e => decide (e.key = p.1))).length = 1)
      ∧ (∀ e ∈ normalize_label_field_config L,
          (defaults_by_key e.key).isSome = true ∨ is_empty_line_key e.key = true)
      ∧ (∀ e ∈ normalize_label_field_config L,
          8 ≤ e.font_size ∧ e.font_size ≤ 120) := by
  refine ⟨?_, normalize_count L, ?_, ?_⟩
  · intro e he
    exact (out_good L e he).1
  · intro e he
    exact (out_good L e he).2.2.2.2.2
  · intro e he
    exact ⟨(out_good L e he).2.2.2.1, (out_good L e he).2.2.2.2.1⟩

theorem normalize_config_invariants_witness :
    ((normalize_label_field_config []).filter
      (fun e => decide (e.key = "cut_name"))).length = 1 :=
  (normalize_config_invariants []).2.1 ("cut_name", "Cut") (by decide)

/-- Claim C7: label field config normalization is idempotent, and
saving a config then parsing the saved payload returns the normalized
field list and the clamped line spacing. -/
theorem label_config_roundtrip (L : List RawConfigItem) (s : Option ℤ) :
    normalize_label_field_config ((normalize_label_field_config L).map fieldEntryToRaw)
        = normalize_label_field_config L
      ∧ parse_label_config_payload (save_label_field_config L s)
        = (normalize_label_field_config L, normalize_label_line_spacing s) := by
  refine ⟨normalize_config_idem L, ?_⟩
  show (normalize_label_field_config ((normalize_label_field_config L).map fieldEntryToRaw),
      normalize_label_line_spacing (some (normalize_label_line_spacing s)))
    = (normalize_label_field_config L, normalize_label_line_spacing s)
  rw [normalize_config_idem L, spacing_idem s]
